import Mathlib

/-!
# gre: a dynamically typed expression evaluator over Go syntax trees

A shallow embedding of `engine.go` and `method.go`.

* Values of Go's `interface{}` are the inductive `Value`: the dynamic types the
  evaluator switches on, and the `error` and function values it builds itself.
  `int` is taken to be 64 bits wide; machine integers are `Int` with explicit
  wrap-around.  A Go string is the sequence of its bytes, a `GoString`; a text
  written where a Go string stands is its UTF-8 encoding.
* A Go function returning `(interface{}, error)` returns a `Res`: either the
  pair it returns or the run-time panic it raises.  `Run` is the only place
  that recovers a panic.  An `error` is the `GoError` naming the place that
  built it; the operands formatted into its message are left out.
* `float64` is the datatype `Float64` with round-to-nearest-even arithmetic,
  `strconv` and the decimal library are modelled by their results.
* The syntax tree is the part of `go/ast` that `eval` inspects.  `go/parser`
  and `regexp` are libraries outside the repository: `Run` receives the
  outcome of `parser.ParseExpr`, and the evaluator takes the `regexp`
  operations it calls as the record `Regexp`.
-/

namespace Gre

/-! ## Tokens -/

/-- The literal kinds and operators of `go/token` that can label the nodes `eval` reads. -/
inductive Token
  | INT | FLOAT | IMAG | CHAR | STRING
  | ADD | SUB | MUL | QUO | REM
  | AND | OR | XOR | SHL | SHR | AND_NOT
  | LAND | LOR | ARROW
  | EQL | LSS | GTR | NOT | NEQ | LEQ | GEQ | TILDE
  deriving DecidableEq, Repr

/-! ## Strings -/

/-- A Go `byte`. -/
abbrev Byte := UInt8

/-- A Go `string`: the sequence of its bytes.  `len`, indexing and slicing
count bytes. -/
structure GoString where
  bytes : List Byte
  deriving DecidableEq, Repr

namespace GoString

/-- The UTF-8 encoding of a character. -/
def utf8 (c : Char) : List Byte :=
  let v := c.toNat
  if v < 0x80 then [v.toUInt8]
  else if v < 0x800 then [(0xC0 + v / 0x40).toUInt8, (0x80 + v % 0x40).toUInt8]
  else if v < 0x10000 then
    [(0xE0 + v / 0x1000).toUInt8, (0x80 + v / 0x40 % 0x40).toUInt8, (0x80 + v % 0x40).toUInt8]
  else
    [(0xF0 + v / 0x40000).toUInt8, (0x80 + v / 0x1000 % 0x40).toUInt8,
     (0x80 + v / 0x40 % 0x40).toUInt8, (0x80 + v % 0x40).toUInt8]

/-- The Go string of a text, as a Go source file or a Go string literal holds
it: the UTF-8 encoding of its characters. -/
def ofString (s : String) : GoString := ⟨s.data.flatMap utf8⟩

instance : Coe String GoString := ⟨ofString⟩

/-- The length `len(s)`, in bytes. -/
def length (s : GoString) : Nat := s.bytes.length

/-- The concatenation `a + b`. -/
def append (a b : GoString) : GoString := ⟨a.bytes ++ b.bytes⟩

instance : Append GoString := ⟨append⟩

/-- The slice expression `s[lo:hi]`: the bytes of `s` from index `lo` up to,
not including, index `hi`; `none` when the bounds are out of range, where Go
panics. -/
def slice (s : GoString) (lo hi : Int) : Option GoString :=
  if 0 ≤ lo ∧ lo ≤ hi ∧ hi ≤ s.length then some ⟨(s.bytes.take hi.toNat).drop lo.toNat⟩
  else none

/-- The bytes of a string, each as the character of the same code: `strconv`
reads a text byte by byte and compares each byte with ASCII characters. -/
def chars (s : GoString) : List Char := s.bytes.map fun b => Char.ofNat b.toNat

end GoString

/-! ## Machine integers -/

/-- Least `int64`. -/
def minInt64 : Int := -(2 ^ 63)

/-- Greatest `int64`. -/
def maxInt64 : Int := 2 ^ 63 - 1

/-- Whether an integer is representable as an `int64`. -/
def inInt64 (x : Int) : Prop := minInt64 ≤ x ∧ x ≤ maxInt64

instance (x : Int) : Decidable (inInt64 x) := by
  unfold inInt64; exact inferInstance

/-- Two's-complement reduction of an exact integer result to 64 bits. -/
def wrap64 (x : Int) : Int := (x + 2 ^ 63) % 2 ^ 64 - 2 ^ 63

/-! ## float64 -/

/-- A `float64` datum: not-a-number, an infinity, or the finite value
`(-1)^neg * m * 2^e`. -/
inductive Float64
  | nan
  | inf (neg : Bool)
  | fin (neg : Bool) (m : Nat) (e : Int)
  deriving DecidableEq, Repr

namespace Float64

/-- Numerator of `m * 2^e` over the denominator `den2 e`. -/
def num2 (m : Nat) (e : Int) : Nat := m * 2 ^ e.toNat

/-- Denominator of `2^e`: `2^(-e)` when `e` is negative, else `1`. -/
def den2 (e : Int) : Nat := 2 ^ (-e).toNat

/-- Position of the highest set bit of `n` (zero for `n < 2`), by halving at
most `fuel` times. -/
def log2Aux : Nat → Nat → Nat
  | 0, _ => 0
  | fuel + 1, n => if n < 2 then 0 else log2Aux fuel (n / 2) + 1

/-- Floor of the binary logarithm of a positive natural number. -/
def log2 (n : Nat) : Nat := log2Aux n n

/-- The `float64` nearest to the rational `n / d` (ties to even), with sign
`neg`; overflow gives an infinity, underflow a subnormal or zero. -/
def roundRat (neg : Bool) (n d : Nat) : Float64 :=
  if d = 0 then nan
  else if n = 0 then fin neg 0 (-1074)
  else
    let k0 : Int := (log2 n : Int) - (log2 d : Int) - 52
    let k1 : Int := if d * 2 ^ k0.toNat * 2 ^ 52 ≤ n * 2 ^ (-k0).toNat then k0 else k0 - 1
    let k : Int := max k1 (-1074)
    let num := n * 2 ^ (-k).toNat
    let den := d * 2 ^ k.toNat
    let q := num / den
    let r := num % den
    let q1 := if den < 2 * r ∨ (2 * r = den ∧ q % 2 = 1) then q + 1 else q
    let m := if q1 = 2 ^ 53 then 2 ^ 52 else q1
    let e := if q1 = 2 ^ 53 then k + 1 else k
    if 971 < e then inf neg else fin neg m e

/-- Conversion `float64(n)` of an integer. -/
def ofInt (n : Int) : Float64 := roundRat (decide (n < 0)) n.natAbs 1

/-- The signed integer `±m * 2^(e - base)`, for `base ≤ e`. -/
def scaled (neg : Bool) (m : Nat) (e base : Int) : Int :=
  let a : Int := (m * 2 ^ (e - base).toNat : Nat)
  if neg then -a else a

/-- Go's `==` on `float64`: NaN equals nothing, the two zeros are equal. -/
def eq : Float64 → Float64 → Bool
  | fin s m e, fin t n f => decide (scaled s m e (min e f) = scaled t n f (min e f))
  | inf s, inf t => s == t
  | _, _ => false

/-- Go's `<` on `float64`. -/
def lt : Float64 → Float64 → Bool
  | fin s m e, fin t n f => decide (scaled s m e (min e f) < scaled t n f (min e f))
  | inf s, inf t => s && !t
  | inf s, fin _ _ _ => s
  | fin _ _ _, inf t => !t
  | _, _ => false

/-- Go's `<=` on `float64`. -/
def le (a b : Float64) : Bool := lt a b || eq a b

/-- The product `(-1.0) * x`. -/
def neg : Float64 → Float64
  | nan => nan
  | inf s => inf (!s)
  | fin s m e => fin (!s) m e

/-- Go's `/` on `float64`. -/
def quo : Float64 → Float64 → Float64
  | fin s m e, fin t n f =>
    if n = 0 then (if m = 0 then nan else inf (xor s t))
    else roundRat (xor s t) (num2 m e * den2 f) (num2 n f * den2 e)
  | fin s _ _, inf t => fin (xor s t) 0 (-1074)
  | inf s, fin t _ _ => inf (xor s t)
  | _, _ => nan

end Float64

/-! ## Errors and panics -/

/-- The run-time panics the evaluator can raise. -/
inductive Panic
  | typeAssertion
  | indexOutOfRange
  | sliceBounds
  | divideByZero
  | uncomparable
  | mustCompile
  | decimalFromFloat
  deriving DecidableEq, Repr

/-- The `error` values the program builds or receives; the formatted operands
of a message are left out. -/
inductive GoError
  | parse (msg : String)
  | errSyntax
  | errRange
  | unsupportedBasicLit
  | indexType
  | unsupportedIndex
  | invalidBinary
  | invalidUnary
  | unknownMethod
  | unsupportedExpr
  | invalidArgs
  | regexpCompile
  | recovered (p : Panic)
  deriving DecidableEq, Repr

/-! ## The decimal library, as `floatCal` uses it -/

/-- A `decimal.Decimal`: the exact number `value * 10^exp`. -/
structure Decimal where
  value : Int
  exp : Int
  deriving DecidableEq, Repr

namespace Decimal

/-- Number of decimal digits of `n`, less one, by dividing at most `fuel` times. -/
def log10Aux : Nat → Nat → Nat
  | 0, _ => 0
  | fuel + 1, n => if n < 10 then 0 else log10Aux fuel (n / 10) + 1

/-- Floor of the decimal logarithm of the positive rational `n / d`. -/
def decExp (n d : Nat) : Int :=
  if d ≤ n then (log10Aux (n / d) (n / d) : Int)
  else
    let j := log10Aux (d / n) (d / n)
    if d ≤ n * 10 ^ j then -(j : Int) else -((j : Int) + 1)

/-- The shortest decimal `c * 10^x` that `Float64.roundRat` sends to `target`,
searched from `p` significant digits upwards: of the two `p`-digit neighbours
of `n / d` the nearer one is preferred. -/
def shortestAux (n d : Nat) (dexp : Int) (target : Float64) : Nat → Nat → Nat × Int
  | 0, p =>
    let x : Int := dexp - p + 1
    ((n * 10 ^ (-x).toNat) / (d * 10 ^ x.toNat), x)
  | fuel + 1, p =>
    let x : Int := dexp - p + 1
    let num := n * 10 ^ (-x).toNat
    let den := d * 10 ^ x.toNat
    let c := num / den
    let r := num % den
    let up : Bool := decide (den < 2 * r ∨ (2 * r = den ∧ c % 2 = 1))
    let near := if up then c + 1 else c
    let far := if up then c else c + 1
    if Float64.roundRat false (near * 10 ^ x.toNat) (10 ^ (-x).toNat) = target then (near, x)
    else if Float64.roundRat false (far * 10 ^ x.toNat) (10 ^ (-x).toNat) = target then (far, x)
    else shortestAux n d dexp target fuel (p + 1)

/-- The call `decimal.NewFromFloat`: the shortest decimal that converts back to
the argument; `none` is its panic on NaN and the infinities. -/
def newFromFloat : Float64 → Option Decimal
  | .nan => none
  | .inf _ => none
  | .fin s m e =>
    if m = 0 then some ⟨0, 0⟩
    else
      let n := Float64.num2 m e
      let d := Float64.den2 e
      let cx := shortestAux n d (decExp n d) (Float64.roundRat false n d) 17 1
      some ⟨if s then -(cx.1 : Int) else (cx.1 : Int), cx.2⟩

/-- The method `Decimal.Add`, exact. -/
def add (a b : Decimal) : Decimal :=
  let x := min a.exp b.exp
  ⟨a.value * 10 ^ (a.exp - x).toNat + b.value * 10 ^ (b.exp - x).toNat, x⟩

/-- The method `Decimal.Sub`, exact. -/
def sub (a b : Decimal) : Decimal :=
  let x := min a.exp b.exp
  ⟨a.value * 10 ^ (a.exp - x).toNat - b.value * 10 ^ (b.exp - x).toNat, x⟩

/-- The method `Decimal.Mul`, exact. -/
def mul (a b : Decimal) : Decimal := ⟨a.value * b.value, a.exp + b.exp⟩

/-- The method `Decimal.Float64`: the nearest `float64`. -/
def toFloat64 (a : Decimal) : Float64 :=
  Float64.roundRat (decide (a.value < 0)) (a.value.natAbs * 10 ^ a.exp.toNat) (10 ^ (-a.exp).toNat)

end Decimal

/-- The function `floatCal` of `method.go`: `+`, `-` and `*` go through the
decimal library, `/` is the machine division, any other operator gives zero.
Both operands are converted to decimals before the operator is looked at, so
`none` (the panic of `decimal.NewFromFloat`) can arise for every operator. -/
def floatCal (l r : Float64) (op : Char) : Option Float64 :=
  match Decimal.newFromFloat l, Decimal.newFromFloat r with
  | some ld, some rd =>
    if op = '+' then some (ld.add rd).toFloat64
    else if op = '-' then some (ld.sub rd).toFloat64
    else if op = '*' then some (ld.mul rd).toFloat64
    else if op = '/' then some (Float64.quo l r)
    else some (Float64.fin false 0 (-1074))
  | _, _ => none

/-! ## strconv -/

/-- Value of a decimal or hexadecimal digit. -/
def digitVal (c : Char) : Option Nat :=
  if '0' ≤ c ∧ c ≤ '9' then some (c.toNat - 48)
  else if 'a' ≤ c ∧ c ≤ 'f' then some (c.toNat - 87)
  else if 'A' ≤ c ∧ c ≤ 'F' then some (c.toNat - 55)
  else none

/-- The digit loop of `strconv.ParseUint(s, 10, 64)`: the value read and the
error, if any; the loop stops at the first bad character or overflow. -/
def parseUintLoop : List Char → Nat → Nat × Option GoError
  | [], n => (n, none)
  | c :: cs, n =>
    if '0' ≤ c ∧ c ≤ '9' then
      if 2 ^ 64 / 10 + 1 ≤ n then (2 ^ 64 - 1, some .errRange)
      else if 2 ^ 64 - 1 < n * 10 + (c.toNat - 48) then (2 ^ 64 - 1, some .errRange)
      else parseUintLoop cs (n * 10 + (c.toNat - 48))
    else (0, some .errSyntax)

/-- The call `strconv.ParseUint(s, 10, 64)`. -/
def parseUint (s : List Char) : Nat × Option GoError :=
  match s with
  | [] => (0, some .errSyntax)
  | _ => parseUintLoop s 0

/-- The call `strconv.ParseInt(s, 10, 64)`: the `int64` returned and the error. -/
def parseInt (s : GoString) : Int × Option GoError :=
  match s.chars with
  | [] => (0, some .errSyntax)
  | c :: cs =>
    let neg := decide (c = '-')
    let body := if c = '+' ∨ c = '-' then cs else c :: cs
    match parseUint body with
    | (_, some .errSyntax) => (0, some .errSyntax)
    | (un, err) =>
      if !neg ∧ 2 ^ 63 ≤ un then (2 ^ 63 - 1, some .errRange)
      else if neg ∧ 2 ^ 63 < un then (-(2 ^ 63), some .errRange)
      else (if neg then -(un : Int) else (un : Int), err)

/-- The loop of strconv's `underscoreOK`; `saw` is the class of the last
character: `'0'` a digit or base prefix, `'_'` an underscore, `'!'` another
character, `'^'` the beginning. -/
def underscoreOKLoop (hex : Bool) : List Char → Char → Bool
  | [], saw => saw != '_'
  | c :: cs, saw =>
    if ('0' ≤ c ∧ c ≤ '9') ∨ (hex = true ∧ (('a' ≤ c ∧ c ≤ 'f') ∨ ('A' ≤ c ∧ c ≤ 'F'))) then
      underscoreOKLoop hex cs '0'
    else if c = '_' then (if saw != '0' then false else underscoreOKLoop hex cs '_')
    else if saw = '_' then false
    else underscoreOKLoop hex cs '!'

/-- Whether the underscores of a number text only separate digits (strconv's
`underscoreOK`). -/
def underscoreOK (s : List Char) : Bool :=
  let t := match s with
    | c :: cs => if c = '-' ∨ c = '+' then cs else s
    | [] => s
  match t with
  | '0' :: c :: cs =>
    if c.toLower = 'b' ∨ c.toLower = 'o' ∨ c.toLower = 'x' then
      underscoreOKLoop (decide (c.toLower = 'x')) cs '0'
    else underscoreOKLoop false t '^'
  | _ => underscoreOKLoop false t '^'

/-- What the mantissa loop of strconv's `readFloat` has read: the digits as a
number, how many of them follow the point, and the flags of the loop. -/
structure Mantissa where
  mant : Nat
  frac : Nat
  sawdot : Bool
  sawdigits : Bool
  underscores : Bool
  deriving Repr

/-- The mantissa loop of `readFloat` in base 10 or 16; returns the unread rest. -/
def scanMantissa (hex : Bool) : List Char → Mantissa → Mantissa × List Char
  | [], st => (st, [])
  | c :: cs, st =>
    if c = '_' then scanMantissa hex cs { st with underscores := true }
    else if c = '.' then
      (if st.sawdot then (st, c :: cs) else scanMantissa hex cs { st with sawdot := true })
    else
      match digitVal c with
      | some v =>
        if v < 10 ∨ hex = true then
          scanMantissa hex cs
            { st with sawdigits := true, mant := st.mant * (if hex then 16 else 10) + v,
                      frac := if st.sawdot then st.frac + 1 else st.frac }
        else (st, c :: cs)
      | none => (st, c :: cs)

/-- The exponent digits of `readFloat`: the (saturating) value, whether an
underscore was seen, and the unread rest. -/
def scanExponent : List Char → Nat → Bool → Nat × Bool × List Char
  | [], e, u => (e, u, [])
  | c :: cs, e, u =>
    if c = '_' then scanExponent cs e true
    else if '0' ≤ c ∧ c ≤ '9' then
      scanExponent cs (if e < 10000 then e * 10 + (c.toNat - 48) else e) u
    else (e, u, c :: cs)

/-- The exponent part of `readFloat` after the mantissa: `none` when the text
is malformed, else the signed exponent, the underscore flag and the rest. -/
def readExponent (hex : Bool) (s : List Char) : Option (Int × Bool × List Char) :=
  match s with
  | c :: cs =>
    if c.toLower = (if hex then 'p' else 'e') then
      let signed : Bool × List Char := match cs with
        | '+' :: r => (false, r)
        | '-' :: r => (true, r)
        | r => (false, r)
      match signed.2 with
      | d :: _ =>
        if '0' ≤ d ∧ d ≤ '9' then
          let r := scanExponent signed.2 0 false
          some (if signed.1 then -(r.1 : Int) else (r.1 : Int), r.2.1, r.2.2)
        else none
      | [] => none
    else if hex then none else some (0, false, s)
  | [] => if hex then none else some (0, false, [])

/-- The names `inf`, `infinity` and `nan` that `strconv.ParseFloat` accepts. -/
def parseSpecial (s : List Char) : Option Float64 :=
  let low := s.map Char.toLower
  if low = "nan".data then some .nan
  else
    let neg := decide (low.head? = some '-')
    let body := if low.head? = some '-' ∨ low.head? = some '+' then low.tail else low
    if body = "inf".data ∨ body = "infinity".data then some (.inf neg) else none

/-- The call `strconv.ParseFloat(s, 64)`: the `float64` returned and the error.
The result is the correctly rounded value of the decimal or hexadecimal text. -/
def parseFloat (s : GoString) : Float64 × Option GoError :=
  match parseSpecial s.chars with
  | some f => (f, none)
  | none =>
    let neg := decide (s.chars.head? = some '-')
    let body := if s.chars.head? = some '-' ∨ s.chars.head? = some '+' then s.chars.tail else s.chars
    let hex : Bool := match body with
      | '0' :: x :: _ :: _ => decide (x.toLower = 'x')
      | _ => false
    let m := scanMantissa hex (if hex then body.drop 2 else body) ⟨0, 0, false, false, false⟩
    if m.1.sawdigits = false then (.fin false 0 (-1074), some .errSyntax)
    else
      match readExponent hex m.2 with
      | some (e, u, []) =>
        if (m.1.underscores || u) && !underscoreOK s.chars then
          (.fin false 0 (-1074), some .errSyntax)
        else
          let x : Int := if hex then e - 4 * m.1.frac else e - m.1.frac
          let b : Nat := if hex then 2 else 10
          let f := Float64.roundRat neg (m.1.mant * b ^ x.toNat) (b ^ (-x).toNat)
          match f with
          | .inf _ => (f, some .errRange)
          | _ => (f, none)
      | _ => (.fin false 0 (-1074), some .errSyntax)

/-! ## Values -/

/-- The functions registered in `fns` (values of the Go type `fn`). -/
inductive Builtin
  | contains
  | matchString
  | findAllString
  | newSlice
  | isEmpty
  deriving DecidableEq, Repr

/-- The dynamic values of `interface{}` the evaluator meets: the nil interface,
the scalar types it switches on, `map[string]interface{}`, the slices
`[]string`, `[]int64` and `[]int`, a registered function, and an `error` held
as a value.  A map is the list of its bindings, read by first match. -/
inductive Value
  | nil
  | int (n : Int)
  | int64 (n : Int)
  | float32 (f : Float64)
  | float64 (f : Float64)
  | string (s : GoString)
  | bool (b : Bool)
  | mapping (m : List (GoString × Value))
  | strings (xs : List GoString)
  | int64s (xs : List Int)
  | ints (xs : List Int)
  | fn (b : Builtin)
  | error (e : GoError)

/-- A `map[string]interface{}`: the data source of a run, or a nested map. -/
abbrev Env := List (GoString × Value)

/-- The map read `m[key]`: the bound value, or the nil interface. -/
def Env.get (m : Env) (key : GoString) : Value := (m.lookup key).getD .nil

/-- What a Go function of result type `(interface{}, error)` does: it returns
a pair, or it panics. -/
inductive Res
  | ret (v : Value) (err : Option GoError)
  | panic (p : Panic)

/-- Go's `==` on two interface values: unequal when the dynamic types differ,
the comparison of the type when they agree, a panic when that type is not
comparable.  Two `error` values built by separate calls are distinct pointers. -/
def ifaceEq : Value → Value → Except Panic Bool
  | .nil, .nil => .ok true
  | .int a, .int b => .ok (decide (a = b))
  | .int64 a, .int64 b => .ok (decide (a = b))
  | .float32 a, .float32 b => .ok (Float64.eq a b)
  | .float64 a, .float64 b => .ok (Float64.eq a b)
  | .string a, .string b => .ok (decide (a = b))
  | .bool a, .bool b => .ok (decide (a = b))
  | .mapping _, .mapping _ => .error .uncomparable
  | .strings _, .strings _ => .error .uncomparable
  | .int64s _, .int64s _ => .error .uncomparable
  | .ints _, .ints _ => .error .uncomparable
  | .fn _, .fn _ => .error .uncomparable
  | _, _ => .ok false

/-! ## Syntax trees -/

mutual
/-- The nodes of `go/ast` that `eval` tells apart; `Other` is every other node. -/
inductive Expr
  | BasicLit (kind : Token) (value : GoString)
  | Ident (name : GoString)
  | ParenExpr (x : Expr)
  | SelectorExpr (x : Expr) (sel : GoString)
  | IndexExpr (x : Expr) (index : Expr)
  | UnaryExpr (op : Token) (x : Expr)
  | BinaryExpr (x : Expr) (op : Token) (y : Expr)
  | CallExpr (fn : Expr) (args : Args)
  | Other
/-- The argument nodes of a call, a `[]ast.Expr`. -/
inductive Args
  | nil
  | cons (head : Expr) (tail : Args)
end

/-- Number of argument nodes, `len(args)`. -/
def Args.len : Args → Nat
  | .nil => 0
  | .cons _ t => t.len + 1

/-- The argument nodes of a list of expressions. -/
def Args.ofList : List Expr → Args
  | [] => .nil
  | e :: es => .cons e (Args.ofList es)

/-! ## The evaluator: the steps that follow the evaluation of the operands -/

/-- The function `evalBasicLit`; the `STRING` case is the slice
`value[1 : len(value)-1]`, in bytes. -/
def evalBasicLit (kind : Token) (value : GoString) : Res :=
  match kind with
  | .INT => .ret (.int64 (parseInt value).1) (parseInt value).2
  | .FLOAT => .ret (.float64 (parseFloat value).1) (parseFloat value).2
  | .STRING =>
    (match value.slice 1 ((value.length : Int) - 1) with
     | some s => .ret (.string s) none
     | none => .panic .sliceBounds)
  | _ => .ret .nil (some .unsupportedBasicLit)

/-- The function `evalIdent`. -/
def evalIdent (name : GoString) (dataSource : Env) : Value :=
  if name = "true" then .bool true
  else if name = "false" then .bool false
  else
    match dataSource.lookup name with
    | none => .nil
    | some value => value

/-- The element `data[index64]` of a slice, or the index panic. -/
def sliceAt {α : Type} (data : List α) (index64 : Int) (wrapv : α → Value) : Res :=
  if index64 < 0 then .panic .indexOutOfRange
  else
    match data.get? index64.toNat with
    | some x => .ret (wrapv x) none
    | none => .panic .indexOutOfRange

/-- The body of `evalIndexExpr` once `data` and `index` are evaluated. -/
def indexValue (data index : Value) : Res :=
  let checked : Option Int := match index with
    | .int n => some n
    | .int64 n => some n
    | .string _ => some 0
    | _ => none
  match checked with
  | none => .ret .nil (some .indexType)
  | some index64 =>
    match data with
    | .mapping m =>
      (match index with
       | .string key => .ret (Env.get m key) none
       | _ => .panic .typeAssertion)
    | .strings xs => sliceAt xs index64 Value.string
    | .int64s xs => sliceAt xs index64 Value.int64
    | .ints xs => sliceAt xs index64 Value.int
    | _ => .ret .nil (some .unsupportedIndex)

/-- The final `switch op` of `evalBinaryExpr`: `==` and `!=` on the interface
values, the prepared error for every other operator. -/
def binaryTail (op : Token) (left right : Value) : Res :=
  match op with
  | .EQL =>
    (match ifaceEq left right with
     | .ok b => .ret (.bool b) none
     | .error p => .panic p)
  | .NEQ =>
    (match ifaceEq left right with
     | .ok b => .ret (.bool (!b)) none
     | .error p => .panic p)
  | _ => .ret .nil (some .invalidBinary)

/-- The result of a `floatCal` call, as `evalBinaryExpr` returns it. -/
def floatCalRes (l r : Float64) (op : Char) : Res :=
  match floatCal l r op with
  | some f => .ret (.float64 f) none
  | none => .panic .decimalFromFloat

/-- The `case float64` of `evalBinaryExpr`, `left` being `float64(lv)`. -/
def binaryFloat64 (op : Token) (lv : Float64) (right : Value) : Res :=
  let conv : Option Float64 := match right with
    | .int n => some (Float64.ofInt n)
    | .int64 n => some (Float64.ofInt n)
    | .float32 f => some f
    | .float64 f => some f
    | _ => none
  match conv with
  | none => .panic .typeAssertion
  | some rv =>
    match op with
    | .ADD => floatCalRes lv rv '+'
    | .SUB => floatCalRes lv rv '-'
    | .MUL => floatCalRes lv rv '*'
    | .QUO => floatCalRes lv rv '/'
    | .LSS => .ret (.bool (Float64.lt lv rv)) none
    | .GTR => .ret (.bool (Float64.lt rv lv)) none
    | .LEQ => .ret (.bool (Float64.le lv rv)) none
    | .GEQ => .ret (.bool (Float64.le rv lv)) none
    | _ => binaryTail op (.float64 lv) right

/-- The `case int64` of `evalBinaryExpr`, `left` being `int64(lv)`: a float
on the right sends `left` to the `float64` case, any other right operand
leaves `rv` at zero unless it is an integer. -/
def binaryInt64 (op : Token) (lv : Int) (right : Value) : Res :=
  match right with
  | .float64 _ => binaryFloat64 op (Float64.ofInt lv) right
  | .float32 _ => binaryFloat64 op (Float64.ofInt lv) right
  | _ =>
    let rv : Int := match right with
      | .int n => n
      | .int64 n => n
      | _ => 0
    match op with
    | .ADD => .ret (.int64 (wrap64 (lv + rv))) none
    | .SUB => .ret (.int64 (wrap64 (lv - rv))) none
    | .MUL => .ret (.int64 (wrap64 (lv * rv))) none
    | .QUO => if rv = 0 then .panic .divideByZero else .ret (.int64 (wrap64 (Int.tdiv lv rv))) none
    | .REM => if rv = 0 then .panic .divideByZero else .ret (.int64 (wrap64 (Int.tmod lv rv))) none
    | .LSS => .ret (.bool (decide (lv < rv))) none
    | .GTR => .ret (.bool (decide (lv > rv))) none
    | .LEQ => .ret (.bool (decide (lv ≤ rv))) none
    | .GEQ => .ret (.bool (decide (lv ≥ rv))) none
    | _ => binaryTail op (.int64 lv) right

/-- The body of `evalBinaryExpr` once both operands are evaluated. -/
def binaryValue (op : Token) (left right : Value) : Res :=
  match left with
  | .int64 lv => binaryInt64 op lv right
  | .int lv => binaryInt64 op lv right
  | .string lv =>
    (match right with
     | .string rv =>
       (match op with
        | .ADD => .ret (.string (lv ++ rv)) none
        | _ => binaryTail op left right)
     | _ => .panic .typeAssertion)
  | .float64 lv => binaryFloat64 op lv right
  | .float32 lv => binaryFloat64 op lv right
  | .bool lv =>
    (match right with
     | .bool rv =>
       (match op with
        | .LAND => .ret (.bool (lv && rv)) none
        | .LOR => .ret (.bool (lv || rv)) none
        | _ => binaryTail op left right)
     | _ => .panic .typeAssertion)
  | _ => binaryTail op left right

/-- The body of `evalUnaryExpr` once the operand is evaluated; the last line of
the function returns the prepared error as the value, with a nil error. -/
def unaryValue (op : Token) (operand : Value) : Res :=
  match operand, op with
  | .bool opd, .NOT => .ret (.bool (!opd)) none
  | .int64 opd, .SUB => .ret (.int64 (wrap64 (-1 * opd))) none
  | .int opd, .SUB => .ret (.int64 (wrap64 (-1 * opd))) none
  | .float64 opd, .SUB => .ret (.float64 (Float64.neg opd)) none
  | _, _ => .ret (.error .invalidUnary) none

/-! ## The regexp library -/

/-- The operations of Go's `regexp` package that the built-ins call, taken as
given: `compile p` tells whether `p` is a well-formed pattern, and for such a
pattern `matchString p s` and `findAllString p s n` are the results of
`MatchString` and `FindAllString`. -/
structure Regexp where
  compile : GoString → Bool
  matchString : GoString → GoString → Bool
  findAllString : GoString → GoString → Int → List GoString

/-- Whether a pattern is a non-empty text without regular-expression
metacharacters. -/
def literalPattern (p : GoString) : Bool :=
  !p.bytes.isEmpty &&
    p.bytes.all fun c => !((GoString.ofString "\\.+*?()|[]\x7b\x7d^$").bytes.contains c)

/-- The successive non-overlapping occurrences of `p` in `s`, leftmost first,
at most `limit` of them, scanning at most `fuel` positions. -/
def literalOccurrences (p : List Byte) : Nat → List Byte → Nat → List GoString
  | 0, _, _ => []
  | _, _, 0 => []
  | fuel + 1, s, limit + 1 =>
    if p.isPrefixOf s then GoString.mk p :: literalOccurrences p fuel (s.drop p.length) limit
    else
      match s with
      | [] => []
      | _ :: t => literalOccurrences p fuel t (limit + 1)

/-- The `regexp` package restricted to literal patterns, on which matching is
substring search; this instance reports every other pattern as malformed.  It
serves where a statement needs a concrete library. -/
def Regexp.literal : Regexp where
  compile := literalPattern
  matchString := fun p s => decide (p.bytes <:+: s.bytes)
  findAllString := fun p s n =>
    literalOccurrences p.bytes (s.length + 1) s.bytes (if n < 0 then s.length + 1 else n.toNat)

/-! ## The built-in functions: the steps that follow the evaluation of the arguments -/

/-- The registry `fns` that `init` fills. -/
def fns : Env :=
  [("contains", .fn .contains), ("matchString", .fn .matchString),
   ("findAllString", .fn .findAllString), ("newSlice", .fn .newSlice),
   ("isEmpty", .fn .isEmpty)]

/-- The type switch of `isEmpty` on the evaluated argument. -/
def isEmptyValue : Value → Bool
  | .nil => true
  | .string v => decide (v = "")
  | _ => false

/-- The type switch of `contains` on the evaluated arguments.  The `err` of the
last `return false, err` of the block is the one declared inside the block,
which is nil there. -/
def containsValue (arg0 arg1 : Value) : Res :=
  match arg0 with
  | .string a =>
    (match arg1 with
     | .string v => .ret (.bool (decide (v.bytes <:+: a.bytes))) none
     | _ => .panic .typeAssertion)
  | .strings xs =>
    (match arg1 with
     | .string v => .ret (.bool (xs.contains v)) none
     | _ => .panic .typeAssertion)
  | _ => .ret (.bool false) none

/-- The call `regexp.MatchString(arg0.(string), arg1.(string))` of `matchString`. -/
def matchStringValue (rx : Regexp) (arg0 arg1 : Value) : Res :=
  match arg0 with
  | .string pattern =>
    (match arg1 with
     | .string s =>
       if rx.compile pattern then .ret (.bool (rx.matchString pattern s)) none
       else .ret (.bool false) (some .regexpCompile)
     | _ => .panic .typeAssertion)
  | _ => .panic .typeAssertion

/-- The two last statements of the `findAllString` block: `regexp.MustCompile`
of the pattern, then `FindAllString(arg1.(string), arg2.(int))`. -/
def findAllStringValue (rx : Regexp) (arg0 arg1 arg2 : Value) : Res :=
  match arg0 with
  | .string pattern =>
    if rx.compile pattern then
      (match arg1 with
       | .string s =>
         (match arg2 with
          | .int n => .ret (.strings (rx.findAllString pattern s n)) none
          | _ => .panic .typeAssertion)
       | _ => .panic .typeAssertion)
    else .panic .mustCompile
  | _ => .panic .typeAssertion

/-- The idiom `v, err := f(...); if err != nil { return dflt, err }` followed
by the rest `k v` of the function; a panic of `f` propagates. -/
def Res.andThen (r : Res) (dflt : Value) (k : Value → Res) : Res :=
  match r with
  | .panic p => .panic p
  | .ret _ (some err) => .ret dflt (some err)
  | .ret v none => k v

/-! ## The evaluator -/

mutual
/-- The function `eval`, with `evalIndexExpr`, `evalBinaryExpr`, `evalUnaryExpr`
and `evalCallExpr` in place at their nodes. -/
def eval (rx : Regexp) : Expr → Env → Res
  | .ParenExpr x, dataSource => eval rx x dataSource
  | .SelectorExpr x sel, dataSource =>
    (eval rx x dataSource).andThen .nil fun data =>
      match data with
      | .mapping m => .ret (evalIdent sel m) none
      | _ => .panic .typeAssertion
  | .IndexExpr x index, dataSource =>
    (eval rx x dataSource).andThen .nil fun data =>
      (eval rx index dataSource).andThen .nil fun idx => indexValue data idx
  | .BinaryExpr x op y, dataSource =>
    (eval rx x dataSource).andThen .nil fun left =>
      (eval rx y dataSource).andThen .nil fun right => binaryValue op left right
  | .CallExpr f args, dataSource =>
    (eval rx f fns).andThen .nil fun fv =>
      match fv with
      | .fn .contains => contains rx args dataSource
      | .fn .matchString => matchString rx args dataSource
      | .fn .findAllString => findAllString rx args dataSource
      | .fn .newSlice => newSlice rx args dataSource []
      | .fn .isEmpty => isEmpty rx args dataSource
      | _ => .ret .nil (some .unknownMethod)
  | .UnaryExpr op x, dataSource =>
    (eval rx x dataSource).andThen .nil fun operand => unaryValue op operand
  | .BasicLit kind value, _ => evalBasicLit kind value
  | .Ident name, dataSource => .ret (evalIdent name dataSource) none
  | .Other, _ => .ret .nil (some .unsupportedExpr)
/-- The function `isEmpty`. -/
def isEmpty (rx : Regexp) : Args → Env → Res
  | .cons a .nil, dataSource =>
    (eval rx a dataSource).andThen (.bool false) fun v => .ret (.bool (isEmptyValue v)) none
  | _, _ => .ret (.bool false) (some .invalidArgs)
/-- The function `newSlice`; `sl` is the slice built so far by its loop,
empty at the call. -/
def newSlice (rx : Regexp) : Args → Env → List GoString → Res
  | .nil, _, sl => .ret (.strings sl) none
  | .cons arg rest, dataSource, sl =>
    (eval rx arg dataSource).andThen .nil fun v =>
      match v with
      | .string s => newSlice rx rest dataSource (sl ++ [s])
      | _ => .panic .typeAssertion
/-- The function `contains`. -/
def contains (rx : Regexp) : Args → Env → Res
  | .cons a0 (.cons a1 .nil), dataSource =>
    (eval rx a0 dataSource).andThen (.bool false) fun arg0 =>
      (eval rx a1 dataSource).andThen (.bool false) fun arg1 => containsValue arg0 arg1
  | _, _ => .ret (.bool false) (some .invalidArgs)
/-- The function `matchString`. -/
def matchString (rx : Regexp) : Args → Env → Res
  | .cons a0 (.cons a1 .nil), dataSource =>
    (eval rx a0 dataSource).andThen (.bool false) fun arg0 =>
      (eval rx a1 dataSource).andThen (.bool false) fun arg1 => matchStringValue rx arg0 arg1
  | _, _ => .ret (.bool false) (some .invalidArgs)
/-- The function `findAllString`. -/
def findAllString (rx : Regexp) : Args → Env → Res
  | .cons a0 (.cons a1 (.cons a2 .nil)), dataSource =>
    (eval rx a0 dataSource).andThen .nil fun arg0 =>
      (eval rx a1 dataSource).andThen .nil fun arg1 =>
        (eval rx a2 dataSource).andThen .nil fun arg2 => findAllStringValue rx arg0 arg1 arg2
  | _, _ => .ret (.bool false) (some .invalidArgs)
end

/-- The function `evalIndexExpr` at the node `x[index]`. -/
def evalIndexExpr (rx : Regexp) (x index : Expr) (dataSource : Env) : Res :=
  eval rx (.IndexExpr x index) dataSource

/-- The function `evalBinaryExpr` at the node `x op y`. -/
def evalBinaryExpr (rx : Regexp) (x : Expr) (op : Token) (y : Expr) (dataSource : Env) : Res :=
  eval rx (.BinaryExpr x op y) dataSource

/-- The function `evalUnaryExpr` at the node `op x`. -/
def evalUnaryExpr (rx : Regexp) (op : Token) (x : Expr) (dataSource : Env) : Res :=
  eval rx (.UnaryExpr op x) dataSource

/-- The function `evalCallExpr` at the node `fn(args...)`. -/
def evalCallExpr (rx : Regexp) (fn : Expr) (args : Args) (dataSource : Env) : Res :=
  eval rx (.CallExpr fn args) dataSource

/-- The function `Run` after `parser.ParseExpr`: `exprAst` is what the parser
returned for the expression text, the tree or its error.  A panic of `eval` is
recovered into `err`, and the named result `rst` is then still nil. -/
def Run (rx : Regexp) (exprAst : Except GoError Expr) (dataSource : Env) :
    Value × Option GoError :=
  match exprAst with
  | .error err => (.nil, some err)
  | .ok ast =>
    match eval rx ast dataSource with
    | .ret rst err => (rst, err)
    | .panic p => (.nil, some (.recovered p))

/-! ## Vocabulary of the statements -/

/-- Whether an evaluation failed: it panicked, or it returned a non-nil error. -/
def Res.failed : Res → Bool
  | .panic _ => true
  | .ret _ (some _) => true
  | .ret _ none => false

/-- Whether a value is an integer of either width, and which. -/
def Value.isInteger (v : Value) (a : Int) : Prop := v = .int a ∨ v = .int64 a

/-- The elements of a value that is a slice, as values: those of `[]string`
are strings, of `[]int64` are `int64`, of `[]int` are `int`. -/
def Value.elements : Value → Option (List Value)
  | .strings xs => some (xs.map Value.string)
  | .int64s xs => some (xs.map Value.int64)
  | .ints xs => some (xs.map Value.int)
  | _ => none

/-- The data source of `engine_test.go`. -/
def testDataSource : Env :=
  [("str", .string "abc123"),
   ("it", .int 123432423),
   ("ft", .float64 (parseFloat "1.2345").1),
   ("it2", .int 2),
   ("bl", .bool true),
   ("arrary", .strings ["0a", "1b"]),
   ("mp", .mapping
      [("ma", .int (-12232)),
       ("mb", .float64 (parseFloat "-0.121231").1),
       ("mc", .string "xxx"),
       ("md", .ints [1, 2, 3]),
       ("ms", .string "12abc789_==+and m")])]

/-- The argument nodes as a list, in order. -/
def Args.toList : Args → List Expr
  | .nil => []
  | .cons e es => e :: es.toList

/-- The string literal whose value is `s`: `s` between double quotes (`s`
is taken to need no escape, as an identifier does not). -/
def quoted (s : GoString) : GoString := "\"" ++ s ++ "\""

mutual
/-- Whether evaluating an expression can read the identifier `n` from the data
source: it has a node `Ident n` outside the callee of a call (a callee is
evaluated against `fns`, whatever it contains). -/
def Expr.reads (n : GoString) : Expr → Bool
  | .BasicLit _ _ => false
  | .Ident k => decide (k = n)
  | .ParenExpr x => Expr.reads n x
  | .SelectorExpr x _ => Expr.reads n x
  | .IndexExpr x index => Expr.reads n x || Expr.reads n index
  | .UnaryExpr _ x => Expr.reads n x
  | .BinaryExpr x _ y => Expr.reads n x || Expr.reads n y
  | .CallExpr _ args => Args.reads n args
  | .Other => false
/-- Whether evaluating one of the argument nodes can read the identifier `n`
from the data source. -/
def Args.reads (n : GoString) : Args → Bool
  | .nil => false
  | .cons e es => Expr.reads n e || Args.reads n es
end

/-- Two data sources that bind every name other than `n` alike. -/
def Env.agreeExcept (n : GoString) (env1 env2 : Env) : Prop :=
  ∀ k, k ≠ n → env1.lookup k = env2.lookup k

/-- The base-10 value of a text of decimal digits. -/
def decimalValue (digits : List Char) : Nat :=
  digits.foldl (fun n c => n * 10 + (c.toNat - 48)) 0

/-- The rational number a decimal stands for, `value * 10^exp`. -/
def Decimal.toRat (d : Decimal) : ℚ := (d.value : ℚ) * (10 : ℚ) ^ d.exp

/-- Whether a `float64` is finite: neither NaN nor an infinity. -/
def Float64.isFinite : Float64 → Bool
  | .fin _ _ _ => true
  | _ => false

namespace Float64

/-- The rational value of a finite float (zero for NaN and infinities). -/
def toRat : Float64 → ℚ
  | .fin s m e => (if s then -1 else 1) * (m : ℚ) * (2 : ℚ) ^ e
  | _ => 0

/-- Rounding `num / den` to an integer, ties to even. -/
def roundHalfEven (num den : Nat) : Nat :=
  if den < 2 * (num % den) ∨ (2 * (num % den) = den ∧ (num / den) % 2 = 1) then num / den + 1
  else num / den

/-- The binary exponent `roundRat` gives to the last bit of the rounding of
`n / d`, before the clamp at the subnormal exponent. -/
def lastBitExp (n d : Nat) : Int :=
  let k0 : Int := (log2 n : Int) - (log2 d : Int) - 52
  if d * 2 ^ k0.toNat * 2 ^ 52 ≤ n * 2 ^ (-k0).toNat then k0 else k0 - 1

end Float64

/-- Whether a mantissa and an exponent are those of a `float64`: at most 53
bits, the exponent of the last bit between -1074 and 971. -/
def Float64.representable (m : Nat) (e : Int) : Prop := m < 2 ^ 53 ∧ -1074 ≤ e ∧ e ≤ 971

/-- A float `f` is a finite `float64` and no finite `float64` is nearer to the
rational `x`. -/
def Float64.nearestTo (f : Float64) (x : ℚ) : Prop :=
  ∃ s m e, f = .fin s m e ∧ Float64.representable m e ∧
    ∀ s' m' e', Float64.representable m' e' →
      |x - f.toRat| ≤ |x - (Float64.fin s' m' e').toRat|

/-- A float `f` is what rounding the rational `x` to `float64` gives: when `f`
is finite it is a nearest `float64` to `x` (otherwise the rounding overflowed,
or a division had no finite result). -/
def Float64.roundsFrom (f : Float64) (x : ℚ) : Prop := f.isFinite = true → f.nearestTo x

/-! ## Unfolding the evaluator at a node -/

theorem eval_binary {rx : Regexp} {env : Env} {x y : Expr} {l r : Value} (op : Token)
    (hx : eval rx x env = .ret l none) (hy : eval rx y env = .ret r none) :
    eval rx (.BinaryExpr x op y) env = binaryValue op l r := by
  simp [eval, hx, hy, Res.andThen]

theorem eval_index {rx : Regexp} {env : Env} {x y : Expr} {data idx : Value}
    (hx : eval rx x env = .ret data none) (hy : eval rx y env = .ret idx none) :
    eval rx (.IndexExpr x y) env = indexValue data idx := by
  simp [eval, hx, hy, Res.andThen]

theorem eval_unary {rx : Regexp} {env : Env} {x : Expr} {v : Value} (op : Token)
    (hx : eval rx x env = .ret v none) :
    eval rx (.UnaryExpr op x) env = unaryValue op v := by
  simp [eval, hx, Res.andThen]

theorem eval_call_ident (rx : Regexp) (env : Env) (name : GoString) (args : Args) :
    eval rx (.CallExpr (.Ident name) args) env =
      (match evalIdent name fns with
       | .fn .contains => contains rx args env
       | .fn .matchString => matchString rx args env
       | .fn .findAllString => findAllString rx args env
       | .fn .newSlice => newSlice rx args env []
       | .fn .isEmpty => isEmpty rx args env
       | _ => .ret .nil (some .unknownMethod)) := by
  simp [eval, Res.andThen]

theorem eval_int_literal (rx : Regexp) (env : Env) (text : GoString) :
    eval rx (.BasicLit .INT text) env = .ret (.int64 (parseInt text).1) (parseInt text).2 := by
  simp [eval, evalBasicLit]

/-! ## C1: a value next to an error -/

/-- C1, at the call `isEmpty()`: whatever the data source, `Run` returns the
Bool `false` together with a non-nil error, not Nil. -/
theorem run_isEmpty_no_args (rx : Regexp) (env : Env) :
    Run rx (.ok (.CallExpr (.Ident "isEmpty") .nil)) env = (.bool false, some .invalidArgs) := by
  rfl

/-! ## C2: an integer on the left of a non-number -/

/-- C2, at `100+"xx"` and in general: whatever the data source, `Run` returns
the Int64 `100` and no error; on the right of an integer a String, Bool or Nil
operand counts as zero for `+` and `<`. -/
theorem run_int_plus_string (rx : Regexp) (env : Env) (a : Int) (v : Value) :
    Run rx (.ok (.BinaryExpr (.BasicLit .INT "100") .ADD (.BasicLit .STRING "\"xx\""))) env
      = (.int64 100, none) ∧
    ((v = .nil ∨ (∃ s, v = .string s) ∨ (∃ b, v = .bool b)) →
      binaryValue .ADD (.int64 a) v = .ret (.int64 (wrap64 (a + 0))) none ∧
      binaryValue .LSS (.int64 a) v = .ret (.bool (decide (a < 0))) none) := by
  refine ⟨rfl, ?_⟩
  rintro (rfl | ⟨s, rfl⟩ | ⟨b, rfl⟩) <;> exact ⟨rfl, rfl⟩

/-! ## C3: `==` and `!=` -/

/-- Once both operands are evaluated, `==` and `!=` succeed on two Strings,
two Bools, two Int64s and two Floats with the equality of the two values and
its negation, and on a Nil left operand with whether the right operand is Nil;
they fail when the left operand is a String or a Bool and the right one is of
another variant, and when the left operand is a Float and the right one is
Nil, a String or a Bool. -/
theorem eq_neq_by_left_operand {rx : Regexp} {env : Env} {x y : Expr} {l r : Value}
    (hx : eval rx x env = .ret l none) (hy : eval rx y env = .ret r none) :
    (∀ a b, l = .string a → r = .string b →
      eval rx (.BinaryExpr x .EQL y) env = .ret (.bool (decide (a = b))) none ∧
      eval rx (.BinaryExpr x .NEQ y) env = .ret (.bool (!decide (a = b))) none) ∧
    (∀ a b, l = .bool a → r = .bool b →
      eval rx (.BinaryExpr x .EQL y) env = .ret (.bool (decide (a = b))) none ∧
      eval rx (.BinaryExpr x .NEQ y) env = .ret (.bool (!decide (a = b))) none) ∧
    (∀ a b, l = .int64 a → r = .int64 b →
      eval rx (.BinaryExpr x .EQL y) env = .ret (.bool (decide (a = b))) none ∧
      eval rx (.BinaryExpr x .NEQ y) env = .ret (.bool (!decide (a = b))) none) ∧
    (∀ a b, l = .float64 a → r = .float64 b →
      eval rx (.BinaryExpr x .EQL y) env = .ret (.bool (Float64.eq a b)) none ∧
      eval rx (.BinaryExpr x .NEQ y) env = .ret (.bool (!Float64.eq a b)) none) ∧
    (l = .nil → ∃ t : Bool, (t = true ↔ r = .nil) ∧
      eval rx (.BinaryExpr x .EQL y) env = .ret (.bool t) none ∧
      eval rx (.BinaryExpr x .NEQ y) env = .ret (.bool (!t)) none) ∧
    (∀ a, l = .string a → (∀ b, r ≠ .string b) →
      (eval rx (.BinaryExpr x .EQL y) env).failed = true ∧
      (eval rx (.BinaryExpr x .NEQ y) env).failed = true) ∧
    (∀ a, l = .bool a → (∀ b, r ≠ .bool b) →
      (eval rx (.BinaryExpr x .EQL y) env).failed = true ∧
      (eval rx (.BinaryExpr x .NEQ y) env).failed = true) ∧
    (∀ a, l = .float64 a → (r = .nil ∨ (∃ s, r = .string s) ∨ (∃ b, r = .bool b)) →
      (eval rx (.BinaryExpr x .EQL y) env).failed = true ∧
      (eval rx (.BinaryExpr x .NEQ y) env).failed = true) := by
  rw [eval_binary .EQL hx hy, eval_binary .NEQ hx hy]
  refine ⟨?_, ?_, ?_, ?_, ?_, ?_, ?_, ?_⟩
  · rintro a b rfl rfl
    simp [binaryValue, binaryTail, ifaceEq]
  · rintro a b rfl rfl
    simp [binaryValue, binaryTail, ifaceEq]
  · rintro a b rfl rfl
    simp [binaryValue, binaryInt64, binaryTail, ifaceEq]
  · rintro a b rfl rfl
    simp [binaryValue, binaryFloat64, binaryTail, ifaceEq]
  · rintro rfl
    cases r <;> simp [binaryValue, binaryTail, ifaceEq]
  · rintro a rfl hr
    cases r <;> simp_all [binaryValue, Res.failed]
  · rintro a rfl hr
    cases r <;> simp_all [binaryValue, Res.failed]
  · rintro a rfl hr
    rcases hr with rfl | ⟨s, rfl⟩ | ⟨b, rfl⟩ <;> simp [binaryValue, binaryFloat64, Res.failed]

/-- C3, at `"a" == 1` and in general: the `string` and `bool` cases of
`evalBinaryExpr` assert the type of the right operand before they look at the
operator, so `==` and `!=` with a String or a Bool on the left of a value of
another variant panic and `Run` returns Nil and an error; with the operands
the other way round (`1 == "a"`), a Nil or a Mapping on the left, the
comparison reaches the last `switch` and gives `false` for `==` and `true` for
`!=` with no error. -/
theorem eq_asserts_right_operand_first (rx : Regexp) :
    Run Regexp.literal
        (.ok (.BinaryExpr (.BasicLit .STRING "\"a\"") .EQL (.BasicLit .INT "1"))) testDataSource
      = (.nil, some (.recovered .typeAssertion)) ∧
    Run Regexp.literal
        (.ok (.BinaryExpr (.BasicLit .INT "1") .EQL (.BasicLit .STRING "\"a\""))) testDataSource
      = (.bool false, none) ∧
    Run Regexp.literal
        (.ok (.BinaryExpr (.BasicLit .INT "1") .NEQ (.BasicLit .STRING "\"a\""))) testDataSource
      = (.bool true, none) ∧
    Run Regexp.literal
        (.ok (.BinaryExpr (.Ident "noexit") .EQL (.BasicLit .STRING "\"a\""))) testDataSource
      = (.bool false, none) ∧
    Run Regexp.literal
        (.ok (.BinaryExpr (.BasicLit .STRING "\"a\"") .EQL (.Ident "noexit"))) testDataSource
      = (.nil, some (.recovered .typeAssertion)) ∧
    Run Regexp.literal
        (.ok (.BinaryExpr (.Ident "mp") .EQL (.BasicLit .INT "1"))) testDataSource
      = (.bool false, none) ∧
    Run Regexp.literal
        (.ok (.BinaryExpr (.Ident "true") .EQL (.BasicLit .STRING "\"a\""))) testDataSource
      = (.nil, some (.recovered .typeAssertion)) ∧
    (∀ (x y : Expr) (env : Env) (a : GoString) (r : Value),
      eval rx x env = .ret (.string a) none → eval rx y env = .ret r none →
      (∀ b, r ≠ .string b) →
      Run rx (.ok (.BinaryExpr x .EQL y)) env = (.nil, some (.recovered .typeAssertion)) ∧
      Run rx (.ok (.BinaryExpr x .NEQ y)) env = (.nil, some (.recovered .typeAssertion))) ∧
    (∀ (x y : Expr) (env : Env) (a : Bool) (r : Value),
      eval rx x env = .ret (.bool a) none → eval rx y env = .ret r none →
      (∀ b, r ≠ .bool b) →
      Run rx (.ok (.BinaryExpr x .EQL y)) env = (.nil, some (.recovered .typeAssertion)) ∧
      Run rx (.ok (.BinaryExpr x .NEQ y)) env = (.nil, some (.recovered .typeAssertion))) ∧
    (∀ (x y : Expr) (env : Env) (l r : Value),
      eval rx x env = .ret l none → eval rx y env = .ret r none →
      ((∃ a, l = .int64 a) ∨ l = .nil ∨ (∃ m, l = .mapping m)) →
      ((∃ b, r = .string b) ∨ (∃ b, r = .bool b)) →
      Run rx (.ok (.BinaryExpr x .EQL y)) env = (.bool false, none) ∧
      Run rx (.ok (.BinaryExpr x .NEQ y)) env = (.bool true, none)) := by
  refine ⟨rfl, rfl, rfl, rfl, rfl, rfl, rfl, ?_, ?_, ?_⟩
  · intro x y env a r hx hy hr
    have h1 : binaryValue .EQL (.string a) r = .panic .typeAssertion := by
      cases r <;> simp_all [binaryValue]
    have h2 : binaryValue .NEQ (.string a) r = .panic .typeAssertion := by
      cases r <;> simp_all [binaryValue]
    simp [Run, eval_binary .EQL hx hy, eval_binary .NEQ hx hy, h1, h2]
  · intro x y env a r hx hy hr
    have h1 : binaryValue .EQL (.bool a) r = .panic .typeAssertion := by
      cases r <;> simp_all [binaryValue]
    have h2 : binaryValue .NEQ (.bool a) r = .panic .typeAssertion := by
      cases r <;> simp_all [binaryValue]
    simp [Run, eval_binary .EQL hx hy, eval_binary .NEQ hx hy, h1, h2]
  · intro x y env l r hx hy hl hr
    have h1 : binaryValue .EQL l r = .ret (.bool false) none := by
      rcases hl with ⟨a, rfl⟩ | rfl | ⟨m, rfl⟩ <;> rcases hr with ⟨b, rfl⟩ | ⟨b, rfl⟩ <;>
        simp [binaryValue, binaryInt64, binaryTail, ifaceEq]
    have h2 : binaryValue .NEQ l r = .ret (.bool true) none := by
      rcases hl with ⟨a, rfl⟩ | rfl | ⟨m, rfl⟩ <;> rcases hr with ⟨b, rfl⟩ | ⟨b, rfl⟩ <;>
        simp [binaryValue, binaryInt64, binaryTail, ifaceEq]
    simp [Run, eval_binary .EQL hx hy, eval_binary .NEQ hx hy, h1, h2]

/-! ## C4: operands a unary operator does not take -/

/-- C4, at `-"xx"` and in general: `Run` returns the error object as the value
with a nil error, and once its operand is evaluated no unary expression fails,
whatever the operator and the operand. -/
theorem unary_never_fails (rx : Regexp) (env : Env) (op : Token) (operand : Value) :
    Run rx (.ok (.UnaryExpr .SUB (.BasicLit .STRING "\"xx\""))) env
      = (.error .invalidUnary, none) ∧
    (unaryValue op operand).failed = false := by
  refine ⟨rfl, ?_⟩
  unfold unaryValue
  split <;> rfl

/-! ## C5: indexing with the wrong kind of index -/

/-- C5, at `arrary["x"]` and in general: a String index into a non-empty
`[]string` returns its first element with no error (into an empty one it
panics), while an integer index of either width into a map panics on the type
assertion of the index. -/
theorem string_index_into_slice (rx : Regexp) (first : GoString) (rest : List GoString)
    (key : GoString) (m : Env) (i : Int) :
    Run rx (.ok (.IndexExpr (.Ident "arrary") (.BasicLit .STRING "\"x\""))) testDataSource
      = (.string "0a", none) ∧
    indexValue (.strings (first :: rest)) (.string key) = .ret (.string first) none ∧
    indexValue (.strings []) (.string key) = .panic .indexOutOfRange ∧
    indexValue (.mapping m) (.int64 i) = .panic .typeAssertion ∧
    indexValue (.mapping m) (.int i) = .panic .typeAssertion := by
  exact ⟨rfl, rfl, rfl, rfl, rfl⟩

/-! ## C6: integers of the two widths under `==` -/

/-- C6, at `2 == it2` with `it2` the `int` 2 and in general: `Run` returns
`false`, while `it2 == 2` gives `true`; an Int64 on the left never equals an
`int` on the right, also when the two numbers are equal. -/
theorem run_int64_eq_int (rx : Regexp) (a b : Int) :
    Run rx (.ok (.BinaryExpr (.BasicLit .INT "2") .EQL (.Ident "it2"))) testDataSource
      = (.bool false, none) ∧
    Run rx (.ok (.BinaryExpr (.Ident "it2") .EQL (.BasicLit .INT "2"))) testDataSource
      = (.bool true, none) ∧
    binaryValue .EQL (.int64 a) (.int b) = .ret (.bool false) none := by
  exact ⟨rfl, rfl, rfl⟩

/-! ## C7: `contains` on a container of the wrong type -/

/-- C7, at `contains(1, "a")` and in general: `Run` returns `false` with a nil
error, and so does `contains` for every first argument that is neither a
String nor a `[]string`; with a number of arguments other than two, `contains`
does return its error. -/
theorem contains_wrong_container (rx : Regexp) (env : Env) (arg0 arg1 : Value) (args : Args) :
    Run rx (.ok (.CallExpr (.Ident "contains")
        (.cons (.BasicLit .INT "1") (.cons (.BasicLit .STRING "\"a\"") .nil)))) env
      = (.bool false, none) ∧
    ((∀ s, arg0 ≠ .string s) → (∀ xs, arg0 ≠ .strings xs) →
      containsValue arg0 arg1 = .ret (.bool false) none) ∧
    (args.len ≠ 2 → contains rx args env = .ret (.bool false) (some .invalidArgs)) := by
  refine ⟨rfl, ?_, ?_⟩
  · intro h1 h2
    cases arg0 <;> simp_all [containsValue]
  · intro hlen
    match args with
    | .nil => simp [contains]
    | .cons _ .nil => simp [contains]
    | .cons _ (.cons _ .nil) => simp [Args.len] at hlen
    | .cons _ (.cons _ (.cons _ _)) => simp [contains]

/-! ## C8: integer division and remainder -/

theorem wrap64_of_inInt64 {x : Int} (h : inInt64 x) : wrap64 x = x := by
  unfold inInt64 minInt64 maxInt64 at h
  unfold wrap64
  omega

theorem neg_tmod_eq (a b : Int) : (-a).tmod b = -(a.tmod b) := by
  rw [Int.tmod_def, Int.tmod_def, Int.neg_tdiv]
  ring

theorem tmod_abs_lt (a b : Int) (hb : b ≠ 0) : |a.tmod b| < |b| := by
  have key : ∀ c d : Int, 0 ≤ c → 0 < d → |c.tmod d| < d := by
    intro c d hc hd
    rw [abs_of_nonneg (Int.tmod_nonneg d hc)]
    exact Int.tmod_lt_of_pos c hd
  have pos : ∀ c d : Int, 0 < d → |c.tmod d| < d := by
    intro c d hd
    rcases le_total 0 c with hc | hc
    · exact key c d hc hd
    · have h := key (-c) d (by omega) hd
      rwa [neg_tmod_eq, abs_neg] at h
  rcases lt_or_gt_of_ne hb with h | h
  · have h2 := pos a (-b) (by omega)
    rw [Int.tmod_neg] at h2
    rw [abs_of_neg h]
    exact h2
  · rw [abs_of_pos h]
    exact pos a b h

theorem tmod_sign (a b : Int) : (0 ≤ a → 0 ≤ a.tmod b) ∧ (a ≤ 0 → a.tmod b ≤ 0) := by
  refine ⟨fun h => Int.tmod_nonneg b h, fun h => ?_⟩
  have h2 := Int.tmod_nonneg b (show 0 ≤ -a by omega)
  rw [neg_tmod_eq] at h2
  omega

theorem tmod_inInt64 {a b : Int} (hb : inInt64 b) (hb0 : b ≠ 0) : inInt64 (a.tmod b) := by
  have h := tmod_abs_lt a b hb0
  unfold inInt64 minInt64 maxInt64 at *
  rw [abs_lt] at h
  rcases abs_cases b with ⟨e, _⟩ | ⟨e, _⟩ <;> omega

theorem tdiv_inInt64 {a b : Int} (ha : inInt64 a) (hb0 : b ≠ 0)
    (hne : ¬(a = minInt64 ∧ b = -1)) : inInt64 (a.tdiv b) := by
  have hq : (a.tdiv b).natAbs = a.natAbs / b.natAbs := Int.natAbs_tdiv a b
  unfold inInt64 minInt64 maxInt64 at *
  by_cases h1 : b.natAbs = 1
  · rcases Int.natAbs_eq b with e | e
    · have : b = 1 := by omega
      subst this
      simp
      omega
    · have : b = -1 := by omega
      subst this
      rw [Int.tdiv_neg, Int.tdiv_one]
      omega
  · have h2 : 2 ≤ b.natAbs := by omega
    have h3 : a.natAbs / b.natAbs ≤ a.natAbs / 2 := Nat.div_le_div_left h2 (by norm_num)
    omega

/-- C8: for integers `a` and `b` of either width, when `b` is not zero `a / b`
is the Int64 quotient truncated toward zero (`MinInt64` for `MinInt64 / -1`)
and `a % b` the Int64 remainder `m`, with `a = (a/b)*b + m` in 64-bit
arithmetic, `|m| < |b|` and `m` zero or of the sign of `a`; when `b` is zero
both panic, and `Run` returns Nil and an error. -/
theorem int_quo_rem {rx : Regexp} {env : Env} {x y : Expr} {l r : Value} {a b : Int}
    (hx : eval rx x env = .ret l none) (hy : eval rx y env = .ret r none)
    (hl : l.isInteger a) (hr : r.isInteger b) (ha : inInt64 a) (hb : inInt64 b) :
    (b ≠ 0 → ∃ q m : Int,
      eval rx (.BinaryExpr x .QUO y) env = .ret (.int64 q) none ∧
      eval rx (.BinaryExpr x .REM y) env = .ret (.int64 m) none ∧
      q = (if a = minInt64 ∧ b = -1 then minInt64 else Int.tdiv a b) ∧
      m = Int.tmod a b ∧
      inInt64 q ∧ inInt64 m ∧
      wrap64 (q * b + m) = a ∧ |m| < |b| ∧ (0 ≤ a → 0 ≤ m) ∧ (a ≤ 0 → m ≤ 0)) ∧
    (b = 0 →
      Run rx (.ok (.BinaryExpr x .QUO y)) env = (.nil, some (.recovered .divideByZero)) ∧
      Run rx (.ok (.BinaryExpr x .REM y)) env = (.nil, some (.recovered .divideByZero))) := by
  have hq : eval rx (.BinaryExpr x .QUO y) env = binaryInt64 .QUO a (.int64 b) := by
    rw [eval_binary .QUO hx hy]
    rcases hl with rfl | rfl <;> rcases hr with rfl | rfl <;> rfl
  have hm : eval rx (.BinaryExpr x .REM y) env = binaryInt64 .REM a (.int64 b) := by
    rw [eval_binary .REM hx hy]
    rcases hl with rfl | rfl <;> rcases hr with rfl | rfl <;> rfl
  constructor
  · intro hb0
    have hmod : inInt64 (a.tmod b) := tmod_inInt64 hb hb0
    refine ⟨wrap64 (Int.tdiv a b), Int.tmod a b, ?_, ?_, ?_, rfl, ?_, hmod, ?_,
      tmod_abs_lt a b hb0, (tmod_sign a b).1, (tmod_sign a b).2⟩
    · rw [hq]; simp [binaryInt64, hb0]
    · rw [hm]; simp [binaryInt64, hb0, wrap64_of_inInt64 hmod]
    · by_cases hc : a = minInt64 ∧ b = -1
      · rw [if_pos hc]
        obtain ⟨rfl, rfl⟩ := hc
        decide
      · rw [if_neg hc]
        exact wrap64_of_inInt64 (tdiv_inInt64 ha hb0 hc)
    · by_cases hc : a = minInt64 ∧ b = -1
      · obtain ⟨rfl, rfl⟩ := hc
        decide
      · rw [wrap64_of_inInt64 (tdiv_inInt64 ha hb0 hc)]
        exact tdiv_inInt64 ha hb0 hc
    · by_cases hc : a = minInt64 ∧ b = -1
      · obtain ⟨rfl, rfl⟩ := hc
        decide
      · rw [wrap64_of_inInt64 (tdiv_inInt64 ha hb0 hc), Int.tdiv_add_tmod']
        exact wrap64_of_inInt64 ha
  · rintro rfl
    simp [Run, hq, hm, binaryInt64]

/-- C8 at `7%3` of `engine_test.go`, the operands being two Int64 literals. -/
theorem int_quo_rem_witness :
    inInt64 7 ∧ inInt64 3 ∧ ((3 : Int) ≠ 0 → ∃ q m : Int,
      eval Regexp.literal (.BinaryExpr (.BasicLit .INT "7") .QUO (.BasicLit .INT "3"))
        testDataSource = .ret (.int64 q) none ∧
      eval Regexp.literal (.BinaryExpr (.BasicLit .INT "7") .REM (.BasicLit .INT "3"))
        testDataSource = .ret (.int64 m) none ∧
      q = (if (7 : Int) = minInt64 ∧ (3 : Int) = -1 then minInt64 else Int.tdiv 7 3) ∧
      m = Int.tmod 7 3 ∧
      inInt64 q ∧ inInt64 m ∧
      wrap64 (q * 3 + m) = 7 ∧ |m| < |(3 : Int)| ∧ ((0 : Int) ≤ 7 → 0 ≤ m) ∧
      ((7 : Int) ≤ 0 → m ≤ 0)) :=
  ⟨by decide, by decide,
    (@int_quo_rem Regexp.literal testDataSource (.BasicLit .INT "7") (.BasicLit .INT "3")
      (.int64 7) (.int64 3) 7 3
      rfl rfl (Or.inr rfl) (Or.inr rfl) (by decide) (by decide)).1⟩

/-! ## C9: identifiers -/

/-- C9: evaluating an identifier never fails; it gives the Bool `true` for
`true` and `false` for `false` whatever the data source binds, otherwise the
value bound to the name, and Nil when the name is not bound. -/
theorem ident_resolution (rx : Regexp) (env : Env) (n : GoString) :
    (Run rx (.ok (.Ident n)) env).2 = none ∧
    (eval rx (.Ident n) env).failed = false ∧
    (n = "true" → eval rx (.Ident n) env = .ret (.bool true) none) ∧
    (n = "false" → eval rx (.Ident n) env = .ret (.bool false) none) ∧
    (n ≠ "true" → n ≠ "false" → ∀ v, env.lookup n = some v →
      eval rx (.Ident n) env = .ret v none) ∧
    (n ≠ "true" → n ≠ "false" → env.lookup n = none →
      eval rx (.Ident n) env = .ret .nil none) := by
  have hft : (("false" : String) : GoString) ≠ "true" := by decide
  refine ⟨by simp [Run, eval], by simp [eval, Res.failed], ?_, ?_, ?_, ?_⟩
  · rintro rfl
    simp [eval, evalIdent]
  · rintro rfl
    simp [eval, evalIdent, hft]
  · intro h1 h2 v hv
    simp [eval, evalIdent, h1, h2, hv]
  · intro h1 h2 hv
    simp [eval, evalIdent, h1, h2, hv]

/-! ## C10: positional indexing -/

theorem sliceAt_in_range {α : Type} (data : List α) (wrapv : α → Value) {i : Int}
    (h0 : 0 ≤ i) (h1 : i < data.length) :
    ∃ v, (data.map wrapv).get? i.toNat = some v ∧ sliceAt data i wrapv = .ret v none := by
  have hlt : i.toNat < data.length := by omega
  refine ⟨wrapv (data.get ⟨i.toNat, hlt⟩), ?_, ?_⟩
  · simp [List.getElem?_eq_getElem, hlt]
  · have hn : ¬ i < 0 := by omega
    simp [sliceAt, hn, List.getElem?_eq_getElem, hlt]

theorem sliceAt_out_of_range {α : Type} (data : List α) (wrapv : α → Value) {i : Int}
    (h : i < 0 ∨ (data.length : Int) ≤ i) : sliceAt data i wrapv = .panic .indexOutOfRange := by
  unfold sliceAt
  by_cases hn : i < 0
  · simp [hn]
  · have hge : data.length ≤ i.toNat := by omega
    simp [hn, List.getElem?_eq_none hge]

/-- C10: for a slice `s` of any of the three element types and an integer index
`i` of either width, `s[i]` is the element at the 0-based position `i`, with no
error, when `0 <= i < len(s)`; otherwise it panics with an index out of range,
and `Run` returns Nil and an error. -/
theorem slice_index {rx : Regexp} {env : Env} {x y : Expr} {data idx : Value}
    {elems : List Value} {i : Int}
    (hx : eval rx x env = .ret data none) (hy : eval rx y env = .ret idx none)
    (hs : data.elements = some elems) (hi : idx.isInteger i) :
    (0 ≤ i → i < elems.length → ∃ v, elems.get? i.toNat = some v ∧
      eval rx (.IndexExpr x y) env = .ret v none ∧
      Run rx (.ok (.IndexExpr x y)) env = (v, none)) ∧
    (i < 0 ∨ (elems.length : Int) ≤ i →
      eval rx (.IndexExpr x y) env = .panic .indexOutOfRange ∧
      Run rx (.ok (.IndexExpr x y)) env = (.nil, some (.recovered .indexOutOfRange))) := by
  have hrun : ∀ res, eval rx (.IndexExpr x y) env = res →
      Run rx (.ok (.IndexExpr x y)) env =
        (match res with
         | .ret rst err => (rst, err)
         | .panic p => (.nil, some (.recovered p))) := by
    intro res h
    simp [Run, h]
  have key : ∃ (α : Type) (xs : List α) (wrapv : α → Value),
      elems = xs.map wrapv ∧ indexValue data idx = sliceAt xs i wrapv := by
    cases data <;> simp [Value.elements] at hs
    · exact ⟨_, _, Value.string, hs.symm, by rcases hi with rfl | rfl <;> rfl⟩
    · exact ⟨_, _, Value.int64, hs.symm, by rcases hi with rfl | rfl <;> rfl⟩
    · exact ⟨_, _, Value.int, hs.symm, by rcases hi with rfl | rfl <;> rfl⟩
  obtain ⟨α, xs, wrapv, rfl, hv⟩ := key
  have hev : eval rx (.IndexExpr x y) env = sliceAt xs i wrapv := by
    rw [eval_index hx hy, hv]
  constructor
  · intro h0 h1
    rw [List.length_map] at h1
    obtain ⟨v, hget, hres⟩ := sliceAt_in_range xs wrapv h0 h1
    refine ⟨v, hget, hev.trans hres, ?_⟩
    rw [hrun _ (hev.trans hres)]
  · intro h
    rw [List.length_map] at h
    have hres := sliceAt_out_of_range xs wrapv h
    refine ⟨hev.trans hres, ?_⟩
    rw [hrun _ (hev.trans hres)]

/-- C10 at `mp["md"][1]` of `engine_test.go`: the element at position 1 of the
`[]int` 1, 2, 3, the index being an Int64 literal. -/
theorem slice_index_witness :
    eval Regexp.literal (.IndexExpr (.Ident "mp") (.BasicLit .STRING "\"md\"")) testDataSource
        = .ret (.ints [1, 2, 3]) none ∧
    eval Regexp.literal (.BasicLit .INT "1") testDataSource = .ret (.int64 1) none ∧
    ((0 : Int) ≤ 1 → (1 : Int) < [Value.int 1, Value.int 2, Value.int 3].length →
      ∃ v, [Value.int 1, Value.int 2, Value.int 3].get? (1 : Int).toNat = some v ∧
        eval Regexp.literal
          (.IndexExpr (.IndexExpr (.Ident "mp") (.BasicLit .STRING "\"md\"")) (.BasicLit .INT "1"))
          testDataSource = .ret v none ∧
        Run Regexp.literal (.ok
          (.IndexExpr (.IndexExpr (.Ident "mp") (.BasicLit .STRING "\"md\"")) (.BasicLit .INT "1")))
          testDataSource = (v, none)) :=
  ⟨rfl, rfl,
    (@slice_index Regexp.literal testDataSource
      (.IndexExpr (.Ident "mp") (.BasicLit .STRING "\"md\"")) (.BasicLit .INT "1")
      (.ints [1, 2, 3]) (.int64 1) [Value.int 1, Value.int 2, Value.int 3] 1
      rfl rfl rfl (Or.inr rfl)).1⟩

/-! ## C11: the right operand is always evaluated -/

/-- C11: if the evaluation of the right operand of a binary expression fails,
the evaluation of the expression fails, whatever the operator and the left
operand, and `Run` returns Nil and an error: `&&` and `||` do not
short-circuit. -/
theorem binary_right_failure {rx : Regexp} {env : Env} (x : Expr) (op : Token) {y : Expr}
    (hy : (eval rx y env).failed = true) :
    (eval rx (.BinaryExpr x op y) env).failed = true ∧
    ∃ err, Run rx (.ok (.BinaryExpr x op y)) env = (.nil, some err) := by
  have key : (∃ p, eval rx (.BinaryExpr x op y) env = .panic p) ∨
      ∃ err, eval rx (.BinaryExpr x op y) env = .ret .nil (some err) := by
    simp only [eval]
    cases hx : eval rx x env with
    | panic p => exact Or.inl ⟨p, rfl⟩
    | ret v e =>
      cases e with
      | some err => exact Or.inr ⟨err, rfl⟩
      | none =>
        cases hy2 : eval rx y env with
        | panic p => exact Or.inl ⟨p, rfl⟩
        | ret w e2 =>
          cases e2 with
          | some err => exact Or.inr ⟨err, rfl⟩
          | none => rw [hy2] at hy; simp [Res.failed] at hy
  rcases key with ⟨p, h⟩ | ⟨err, h⟩
  · exact ⟨by rw [h]; rfl, ⟨.recovered p, by simp [Run, h]⟩⟩
  · exact ⟨by rw [h]; rfl, ⟨err, by simp [Run, h]⟩⟩

/-- C11 at `true || 1/0 == 1`: the right operand divides by zero. -/
theorem binary_right_failure_witness :
    (eval Regexp.literal
      (.BinaryExpr (.BinaryExpr (.BasicLit .INT "1") .QUO (.BasicLit .INT "0")) .EQL
        (.BasicLit .INT "1")) testDataSource).failed = true ∧
    (eval Regexp.literal (.BinaryExpr (.Ident "true") .LOR
      (.BinaryExpr (.BinaryExpr (.BasicLit .INT "1") .QUO (.BasicLit .INT "0")) .EQL
        (.BasicLit .INT "1"))) testDataSource).failed = true :=
  ⟨rfl, (@binary_right_failure Regexp.literal testDataSource (.Ident "true") .LOR
    (.BinaryExpr (.BinaryExpr (.BasicLit .INT "1") .QUO (.BasicLit .INT "0")) .EQL
      (.BasicLit .INT "1")) rfl).1⟩

/-! ## C12: selectors -/

/-- The slice `s[1 : len(s)-1]` of a string of at least two bytes is what lies
between its first and its last byte. -/
theorem GoString.slice_inner (first last : Byte) (body : List Byte) :
    GoString.slice ⟨first :: (body ++ [last])⟩ 1
        (((GoString.mk (first :: (body ++ [last]))).length : Int) - 1)
      = some ⟨body⟩ := by
  have hlen : (GoString.mk (first :: (body ++ [last]))).length = body.length + 2 := by
    simp [GoString.length]
  have hhi : ((body.length + 2 : Nat) : Int) - 1 = ((body.length + 1 : Nat) : Int) := by
    push_cast; ring
  have hc : (0 : Int) ≤ 1 ∧ (1 : Int) ≤ ((body.length + 1 : Nat) : Int) ∧
      ((body.length + 1 : Nat) : Int) ≤ ((body.length + 2 : Nat) : Int) := by
    refine ⟨by decide, ?_, ?_⟩ <;> push_cast <;> omega
  have htake : List.take body.length (body ++ [last]) = body := by
    rw [List.take_append_of_le_length (le_refl _)]
    exact List.take_length body
  rw [GoString.slice, hlen, hhi, if_pos hc]
  simp [htake]

theorem evalBasicLit_quoted (s : GoString) :
    evalBasicLit .STRING (quoted s) = .ret (.string s) none := by
  obtain ⟨l⟩ := s
  have hq : quoted ⟨l⟩ = ⟨34 :: (l ++ [34])⟩ := rfl
  simp only [evalBasicLit, hq, GoString.slice_inner]

/-- C12: when the object of a selector `obj.f` evaluates to a map, the result is
the Bool `true` / `false` for the field `true` / `false`, and for every other
field the value the map binds to it, or Nil when it binds none, which is what
the index `obj["f"]` gives; when the object evaluates to anything else, Nil
included, the type assertion panics and `Run` returns Nil and an error. -/
theorem selector_semantics {rx : Regexp} {env : Env} {x : Expr} {data : Value} (f : GoString)
    (hx : eval rx x env = .ret data none) :
    (∀ m, data = .mapping m →
      (f = "true" → eval rx (.SelectorExpr x f) env = .ret (.bool true) none) ∧
      (f = "false" → eval rx (.SelectorExpr x f) env = .ret (.bool false) none) ∧
      (f ≠ "true" → f ≠ "false" →
        (∀ v, m.lookup f = some v → eval rx (.SelectorExpr x f) env = .ret v none) ∧
        (m.lookup f = none → eval rx (.SelectorExpr x f) env = .ret .nil none) ∧
        eval rx (.SelectorExpr x f) env
          = eval rx (.IndexExpr x (.BasicLit .STRING (quoted f))) env)) ∧
    ((∀ m, data ≠ .mapping m) →
      eval rx (.SelectorExpr x f) env = .panic .typeAssertion ∧
      Run rx (.ok (.SelectorExpr x f)) env = (.nil, some (.recovered .typeAssertion))) := by
  have hlit : eval rx (.BasicLit .STRING (quoted f)) env = .ret (.string f) none := by
    simp [eval, evalBasicLit_quoted]
  constructor
  · rintro m rfl
    have hsel : eval rx (.SelectorExpr x f) env = .ret (evalIdent f m) none := by
      simp [eval, hx, Res.andThen]
    have hft : (("false" : String) : GoString) ≠ "true" := by decide
    refine ⟨?_, ?_, ?_⟩
    · rintro rfl
      rw [hsel]; simp [evalIdent]
    · rintro rfl
      rw [hsel]; simp [evalIdent, hft]
    · intro h1 h2
      refine ⟨?_, ?_, ?_⟩
      · intro v hv
        rw [hsel]; simp [evalIdent, h1, h2, hv]
      · intro hv
        rw [hsel]; simp [evalIdent, h1, h2, hv]
      · rw [hsel, eval_index hx hlit]
        simp only [indexValue, Env.get, evalIdent, h1, h2, if_false]
        cases m.lookup f <;> simp
  · intro hne
    have hsel : eval rx (.SelectorExpr x f) env = .panic .typeAssertion := by
      cases data <;> simp_all [eval, Res.andThen]
    exact ⟨hsel, by simp [Run, hsel]⟩

/-- C12 at `mp.mc` of the data source of `engine_test.go`, where `mp["mc"]` is
the String `xxx`. -/
theorem selector_semantics_witness :
    eval Regexp.literal (.Ident "mp") testDataSource
      = .ret (.mapping
          [("ma", .int (-12232)),
           ("mb", .float64 (parseFloat "-0.121231").1),
           ("mc", .string "xxx"),
           ("md", .ints [1, 2, 3]),
           ("ms", .string "12abc789_==+and m")]) none ∧
    eval Regexp.literal (.SelectorExpr (.Ident "mp") "mc") testDataSource
      = .ret (.string "xxx") none :=
  ⟨rfl, ((((@selector_semantics Regexp.literal testDataSource (.Ident "mp") _ "mc" rfl).1
    _ rfl).2.2 (by decide) (by decide)).1 (.string "xxx") rfl)⟩

/-! ## C13: the callee of a call -/

theorem newSlice_congr (rx : Regexp) (env1 env2 : Env) :
    ∀ args : Args, (∀ e ∈ args.toList, eval rx e env1 = eval rx e env2) →
      ∀ sl, newSlice rx args env1 sl = newSlice rx args env2 sl
  | .nil, _, sl => by simp [newSlice]
  | .cons a rest, h, sl => by
    have ha : eval rx a env1 = eval rx a env2 := h a (by simp [Args.toList])
    have hrest := newSlice_congr rx env1 env2 rest (fun e he => h e (by simp [Args.toList, he]))
    simp only [newSlice, ha]
    congr 1
    funext v
    cases v <;> simp [hrest]

theorem builtins_congr (rx : Regexp) (env1 env2 : Env) (args : Args)
    (h : ∀ e ∈ args.toList, eval rx e env1 = eval rx e env2) :
    contains rx args env1 = contains rx args env2 ∧
    matchString rx args env1 = matchString rx args env2 ∧
    findAllString rx args env1 = findAllString rx args env2 ∧
    newSlice rx args env1 [] = newSlice rx args env2 [] ∧
    isEmpty rx args env1 = isEmpty rx args env2 := by
  refine ⟨?_, ?_, ?_, newSlice_congr rx env1 env2 args h [], ?_⟩
  · match args, h with
    | .nil, _ => simp [contains]
    | .cons _ .nil, _ => simp [contains]
    | .cons a (.cons b .nil), h =>
      simp only [contains]
      rw [h a (by simp [Args.toList]), h b (by simp [Args.toList])]
    | .cons _ (.cons _ (.cons _ _)), _ => simp [contains]
  · match args, h with
    | .nil, _ => simp [matchString]
    | .cons _ .nil, _ => simp [matchString]
    | .cons a (.cons b .nil), h =>
      simp only [matchString]
      rw [h a (by simp [Args.toList]), h b (by simp [Args.toList])]
    | .cons _ (.cons _ (.cons _ _)), _ => simp [matchString]
  · match args, h with
    | .nil, _ => simp [findAllString]
    | .cons _ .nil, _ => simp [findAllString]
    | .cons _ (.cons _ .nil), _ => simp [findAllString]
    | .cons a (.cons b (.cons c .nil)), h =>
      simp only [findAllString]
      rw [h a (by simp [Args.toList]), h b (by simp [Args.toList]),
        h c (by simp [Args.toList])]
    | .cons _ (.cons _ (.cons _ (.cons _ _))), _ => simp [findAllString]
  · match args, h with
    | .nil, _ => simp [isEmpty]
    | .cons a .nil, h =>
      simp only [isEmpty]
      rw [h a (by simp [Args.toList])]
    | .cons _ (.cons _ _), _ => simp [isEmpty]

mutual
theorem eval_agree (rx : Regexp) (n : GoString) (env1 env2 : Env)
    (h : Env.agreeExcept n env1 env2) :
    ∀ e : Expr, Expr.reads n e = false → eval rx e env1 = eval rx e env2
  | .BasicLit _ _, _ => by simp [eval]
  | .Ident k, hr => by
    have hk : k ≠ n := by simpa [Expr.reads] using hr
    simp [eval, evalIdent, h k hk]
  | .ParenExpr x, hr => by
    simp only [eval]
    exact eval_agree rx n env1 env2 h x (by simpa [Expr.reads] using hr)
  | .SelectorExpr x _, hr => by
    simp only [eval]
    rw [eval_agree rx n env1 env2 h x (by simpa [Expr.reads] using hr)]
  | .IndexExpr x index, hr => by
    simp only [Expr.reads, Bool.or_eq_false_iff] at hr
    simp only [eval]
    rw [eval_agree rx n env1 env2 h x hr.1, eval_agree rx n env1 env2 h index hr.2]
  | .UnaryExpr _ x, hr => by
    simp only [eval]
    rw [eval_agree rx n env1 env2 h x (by simpa [Expr.reads] using hr)]
  | .BinaryExpr x _ y, hr => by
    simp only [Expr.reads, Bool.or_eq_false_iff] at hr
    simp only [eval]
    rw [eval_agree rx n env1 env2 h x hr.1, eval_agree rx n env1 env2 h y hr.2]
  | .CallExpr f args, hr => by
    have ha : Args.reads n args = false := by simpa [Expr.reads] using hr
    have hb := builtins_congr rx env1 env2 args (args_agree rx n env1 env2 h args ha)
    simp only [eval]
    rw [hb.1, hb.2.1, hb.2.2.1, hb.2.2.2.1, hb.2.2.2.2]
  | .Other, _ => by simp [eval]
theorem args_agree (rx : Regexp) (n : GoString) (env1 env2 : Env)
    (h : Env.agreeExcept n env1 env2) :
    ∀ args : Args, Args.reads n args = false →
      ∀ e ∈ args.toList, eval rx e env1 = eval rx e env2
  | .nil, _ => by simp [Args.toList]
  | .cons a rest, hr => by
    simp only [Args.reads, Bool.or_eq_false_iff] at hr
    intro e he
    simp only [Args.toList, List.mem_cons] at he
    rcases he with rfl | he
    · exact eval_agree rx n env1 env2 h _ hr.1
    · exact args_agree rx n env1 env2 h rest hr.2 e he
end

/-- C13 as stated fails at `isEmpty(isEmpty)`: the argument reads the name of
the callee from the data source, so the outcome is `true` when the data source
does not bind `isEmpty` and `false` when it binds it to the String `x`. -/
theorem call_outcome_reads_callee_name :
    Run Regexp.literal
        (.ok (.CallExpr (.Ident "isEmpty") (.cons (.Ident "isEmpty") .nil))) []
      = (.bool true, none) ∧
    Run Regexp.literal
        (.ok (.CallExpr (.Ident "isEmpty") (.cons (.Ident "isEmpty") .nil)))
        [("isEmpty", .string "x")]
      = (.bool false, none) := by
  exact ⟨rfl, rfl⟩

/-- C13, amended: a call `n(args)` with an identifier callee is the built-in
registered under `n`, invoked with the argument nodes and the data source, when
`n` is one of the five registered names, and the "unknown method" error for
every other name, `true` and `false` included; what the data source binds under
`n` does not change the outcome as long as no argument node reads `n`. -/
theorem call_target_from_registry (rx : Regexp) (env : Env) (n : GoString) (args : Args) :
    (n = "contains" → eval rx (.CallExpr (.Ident n) args) env = contains rx args env) ∧
    (n = "matchString" → eval rx (.CallExpr (.Ident n) args) env = matchString rx args env) ∧
    (n = "findAllString" →
      eval rx (.CallExpr (.Ident n) args) env = findAllString rx args env) ∧
    (n = "newSlice" → eval rx (.CallExpr (.Ident n) args) env = newSlice rx args env []) ∧
    (n = "isEmpty" → eval rx (.CallExpr (.Ident n) args) env = isEmpty rx args env) ∧
    (n ≠ "contains" → n ≠ "matchString" → n ≠ "findAllString" → n ≠ "newSlice" →
      n ≠ "isEmpty" →
      eval rx (.CallExpr (.Ident n) args) env = .ret .nil (some .unknownMethod) ∧
      Run rx (.ok (.CallExpr (.Ident n) args)) env = (.nil, some .unknownMethod)) ∧
    (∀ env2, Env.agreeExcept n env env2 → Args.reads n args = false →
      eval rx (.CallExpr (.Ident n) args) env = eval rx (.CallExpr (.Ident n) args) env2) := by
  refine ⟨?_, ?_, ?_, ?_, ?_, ?_, ?_⟩
  · rintro rfl; rw [eval_call_ident]; rfl
  · rintro rfl; rw [eval_call_ident]; rfl
  · rintro rfl; rw [eval_call_ident]; rfl
  · rintro rfl; rw [eval_call_ident]; rfl
  · rintro rfl; rw [eval_call_ident]; rfl
  · intro h1 h2 h3 h4 h5
    have hev : eval rx (.CallExpr (.Ident n) args) env = .ret .nil (some .unknownMethod) := by
      rw [eval_call_ident]
      by_cases ht : n = "true"
      · subst ht; rfl
      · by_cases hf : n = "false"
        · subst hf; rfl
        · have e1 : (n == "contains") = false := by simpa using h1
          have e2 : (n == "matchString") = false := by simpa using h2
          have e3 : (n == "findAllString") = false := by simpa using h3
          have e4 : (n == "newSlice") = false := by simpa using h4
          have e5 : (n == "isEmpty") = false := by simpa using h5
          simp [evalIdent, ht, hf, fns, List.lookup, e1, e2, e3, e4, e5]
    exact ⟨hev, by simp [Run, hev]⟩
  · intro env2 hagree hreads
    exact eval_agree rx n env env2 hagree _ (by simpa [Expr.reads] using hreads)

/-- C13, amended, at `contains(arrary,"1b")` of `engine_test.go`: binding the
name `contains` in the data source does not change the outcome. -/
theorem call_target_from_registry_witness :
    Env.agreeExcept "contains" testDataSource (("contains", .string "x") :: testDataSource) ∧
    eval Regexp.literal
      (.CallExpr (.Ident "contains")
        (.cons (.Ident "arrary") (.cons (.BasicLit .STRING "\"1b\"") .nil)))
      (("contains", .string "x") :: testDataSource) = .ret (.bool true) none :=
  have hagree : Env.agreeExcept "contains" testDataSource
      (("contains", .string "x") :: testDataSource) := by
    intro k hk
    have e1 : (k == "contains") = false := by simpa using hk
    show List.lookup k testDataSource
      = List.lookup k (("contains", Value.string "x") :: testDataSource)
    simp only [List.lookup, e1]
  ⟨hagree, ((call_target_from_registry Regexp.literal testDataSource "contains"
    (.cons (.Ident "arrary") (.cons (.BasicLit .STRING "\"1b\"") .nil))).2.2.2.2.2.2
    _ hagree rfl).symm.trans rfl⟩

/-! ## C14: `contains` -/

theorem eval_call_contains {rx : Regexp} {env : Env} {a0 a1 : Expr} {v0 v1 : Value}
    (h0 : eval rx a0 env = .ret v0 none) (h1 : eval rx a1 env = .ret v1 none) :
    eval rx (.CallExpr (.Ident "contains") (.cons a0 (.cons a1 .nil))) env
      = containsValue v0 v1 := by
  rw [eval_call_ident]
  show contains rx (.cons a0 (.cons a1 .nil)) env = containsValue v0 v1
  simp [contains, h0, h1, Res.andThen]

theorem GoString.bytes_append (a b : GoString) : (a ++ b).bytes = a.bytes ++ b.bytes := rfl

theorem isInfix_bytes_iff (x s : GoString) :
    x.bytes <:+: s.bytes ↔ ∃ pre post : GoString, s = pre ++ x ++ post := by
  constructor
  · rintro ⟨p, q, h⟩
    refine ⟨⟨p⟩, ⟨q⟩, ?_⟩
    obtain ⟨sb⟩ := s
    obtain ⟨xb⟩ := x
    show GoString.mk sb = GoString.mk ((p ++ xb) ++ q)
    rw [show sb = p ++ xb ++ q from h.symm]
  · rintro ⟨pre, post, rfl⟩
    exact ⟨pre.bytes, post.bytes, by simp [GoString.bytes_append]⟩

/-- C14: with a second argument evaluating to the String `x`, `contains`
succeeds; on a first argument evaluating to the `[]string` `xs` it returns
whether some element of `xs` equals `x` (false for the empty slice), and on a
first argument evaluating to the String `s` whether `x` is a contiguous part
of `s` (true for the empty `x`). -/
theorem contains_semantics {rx : Regexp} {env : Env} {a0 a1 : Expr} (x : GoString)
    (h1 : eval rx a1 env = .ret (.string x) none) :
    (∀ xs, eval rx a0 env = .ret (.strings xs) none →
      ∃ b, eval rx (.CallExpr (.Ident "contains") (.cons a0 (.cons a1 .nil))) env
          = .ret (.bool b) none ∧
        (b = true ↔ x ∈ xs) ∧ (xs = [] → b = false)) ∧
    (∀ s, eval rx a0 env = .ret (.string s) none →
      ∃ b, eval rx (.CallExpr (.Ident "contains") (.cons a0 (.cons a1 .nil))) env
          = .ret (.bool b) none ∧
        (b = true ↔ ∃ pre post : GoString, s = pre ++ x ++ post) ∧ (x = "" → b = true)) := by
  constructor
  · intro xs h0
    refine ⟨xs.contains x, ?_, ?_, ?_⟩
    · rw [eval_call_contains h0 h1]; rfl
    · simp
    · rintro rfl; rfl
  · intro s h0
    refine ⟨decide (x.bytes <:+: s.bytes), ?_, ?_, ?_⟩
    · rw [eval_call_contains h0 h1]; rfl
    · rw [decide_eq_true_iff]
      exact isInfix_bytes_iff x s
    · rintro rfl
      rw [decide_eq_true_iff]
      exact ⟨[], s.bytes, by simp [show (("" : String) : GoString).bytes = [] from rfl]⟩

/-- C14 at `contains(arrary,"1b")` of `engine_test.go`. -/
theorem contains_semantics_witness :
    eval Regexp.literal (.BasicLit .STRING "\"1b\"") testDataSource = .ret (.string "1b") none ∧
    eval Regexp.literal (.Ident "arrary") testDataSource = .ret (.strings ["0a", "1b"]) none ∧
    ∃ b, eval Regexp.literal
          (.CallExpr (.Ident "contains")
            (.cons (.Ident "arrary") (.cons (.BasicLit .STRING "\"1b\"") .nil)))
          testDataSource = .ret (.bool b) none ∧
      (b = true ↔ ("1b" : GoString) ∈ ([("0a" : GoString), "1b"] : List GoString)) ∧
      (([("0a" : GoString), "1b"] : List GoString) = [] → b = false) :=
  ⟨rfl, rfl, (@contains_semantics Regexp.literal testDataSource (.Ident "arrary")
    (.BasicLit .STRING "\"1b\"") "1b" rfl).1 ["0a", "1b"] rfl⟩

/-! ## C15: `newSlice` -/

theorem Args.length_toList : ∀ args : Args, args.toList.length = args.len
  | .nil => rfl
  | .cons _ rest => by simp [Args.toList, Args.len, Args.length_toList rest]

theorem newSlice_of_strings (rx : Regexp) (env : Env) :
    ∀ (args : Args) (ss sl : List GoString),
      List.Forall₂ (fun e s => eval rx e env = .ret (.string s) none) args.toList ss →
      newSlice rx args env sl = .ret (.strings (sl ++ ss)) none
  | .nil, ss, sl, h => by
    simp only [Args.toList, List.forall₂_nil_left_iff] at h
    subst h
    simp [newSlice]
  | .cons a rest, ss, sl, h => by
    simp only [Args.toList, List.forall₂_cons_left_iff] at h
    obtain ⟨s, tl, ha, hrest, rfl⟩ := h
    simp only [newSlice, ha, Res.andThen]
    rw [newSlice_of_strings rx env rest tl (sl ++ [s]) hrest]
    simp

theorem newSlice_of_bad (rx : Regexp) (env : Env) :
    ∀ (args : Args) (sl : List GoString),
      (∃ e ∈ args.toList, (eval rx e env).failed = true ∨
        ∃ v, eval rx e env = .ret v none ∧ ∀ s, v ≠ .string s) →
      (newSlice rx args env sl).failed = true
  | .nil, _, h => by simp [Args.toList] at h
  | .cons a rest, sl, h => by
    simp only [newSlice]
    cases ha : eval rx a env with
    | panic p => rfl
    | ret v err =>
      cases err with
      | some e => rfl
      | none =>
        have hstr : ∀ s, v = .string s →
            (newSlice rx rest env (sl ++ [s])).failed = true := by
          rintro s rfl
          apply newSlice_of_bad rx env rest
          obtain ⟨e, he, hbad⟩ := h
          simp only [Args.toList, List.mem_cons] at he
          rcases he with rfl | he
          · rcases hbad with hf | ⟨w, hw, hns⟩
            · rw [ha] at hf; simp [Res.failed] at hf
            · rw [ha] at hw
              cases hw
              exact absurd rfl (hns s)
          · exact ⟨e, he, hbad⟩
        cases v <;> first | rfl | exact hstr _ rfl

/-- C15: when the arguments of `newSlice` evaluate, in order, to the Strings of
the list `ss`, the call succeeds and returns the `[]string` `ss`, of the length
of the argument list (the empty slice for no argument); when some argument
fails to evaluate, or evaluates to a value that is not a String, the call
fails. -/
theorem newSlice_semantics (rx : Regexp) (env : Env) (args : Args) :
    (∀ ss, List.Forall₂ (fun e s => eval rx e env = .ret (.string s) none) args.toList ss →
      eval rx (.CallExpr (.Ident "newSlice") args) env = .ret (.strings ss) none ∧
      Run rx (.ok (.CallExpr (.Ident "newSlice") args)) env = (.strings ss, none) ∧
      ss.length = args.len) ∧
    ((∃ e ∈ args.toList, (eval rx e env).failed = true ∨
        ∃ v, eval rx e env = .ret v none ∧ ∀ s, v ≠ .string s) →
      (eval rx (.CallExpr (.Ident "newSlice") args) env).failed = true) := by
  have hcall : eval rx (.CallExpr (.Ident "newSlice") args) env = newSlice rx args env [] := by
    rw [eval_call_ident]; rfl
  constructor
  · intro ss h
    have hev : eval rx (.CallExpr (.Ident "newSlice") args) env = .ret (.strings ss) none := by
      rw [hcall, newSlice_of_strings rx env args ss [] h]; simp
    refine ⟨hev, by simp [Run, hev], ?_⟩
    rw [← Args.length_toList, h.length_eq]
  · intro h
    rw [hcall]
    exact newSlice_of_bad rx env args [] h

/-- C15 at `newSlice("a",str)` of `engine_test.go`, and for no argument. -/
theorem newSlice_semantics_witness :
    eval Regexp.literal
      (.CallExpr (.Ident "newSlice") (.cons (.BasicLit .STRING "\"a\"") (.cons (.Ident "str") .nil)))
      testDataSource = .ret (.strings ["a", "abc123"]) none ∧
    eval Regexp.literal (.CallExpr (.Ident "newSlice") .nil) testDataSource
      = .ret (.strings []) none :=
  ⟨((newSlice_semantics Regexp.literal testDataSource
      (.cons (.BasicLit .STRING "\"a\"") (.cons (.Ident "str") .nil))).1 ["a", "abc123"]
      (List.Forall₂.cons rfl (List.Forall₂.cons rfl List.Forall₂.nil))).1,
   ((newSlice_semantics Regexp.literal testDataSource .nil).1 [] List.Forall₂.nil).1⟩

/-! ## C16: `isEmpty` -/

/-- C16: on one argument evaluating to the value `v`, `isEmpty` succeeds and
returns whether `v` is Nil or the empty String, hence `false` for the Int64 0,
the Float 0, the Bool `false`, the empty slices and the empty map; with a
number of arguments other than one it fails. -/
theorem isEmpty_semantics {rx : Regexp} {env : Env} {e : Expr} {v : Value}
    (he : eval rx e env = .ret v none) :
    (∃ b, eval rx (.CallExpr (.Ident "isEmpty") (.cons e .nil)) env = .ret (.bool b) none ∧
      Run rx (.ok (.CallExpr (.Ident "isEmpty") (.cons e .nil))) env = (.bool b, none) ∧
      (b = true ↔ v = .nil ∨ v = .string "") ∧
      (v = .int64 0 ∨ v = .float64 (Float64.ofInt 0) ∨ v = .bool false ∨ v = .strings [] ∨
        v = .int64s [] ∨ v = .ints [] ∨ v = .mapping [] → b = false)) ∧
    (∀ args : Args, args.len ≠ 1 →
      (eval rx (.CallExpr (.Ident "isEmpty") args) env).failed = true) := by
  have hcall : ∀ args, eval rx (.CallExpr (.Ident "isEmpty") args) env = isEmpty rx args env := by
    intro args; rw [eval_call_ident]; rfl
  constructor
  · have hev : eval rx (.CallExpr (.Ident "isEmpty") (.cons e .nil)) env
        = .ret (.bool (isEmptyValue v)) none := by
      rw [hcall]; simp [isEmpty, he, Res.andThen]
    refine ⟨isEmptyValue v, hev, by simp [Run, hev], ?_, ?_⟩
    · cases v <;> simp [isEmptyValue]
    · rintro (rfl | rfl | rfl | rfl | rfl | rfl | rfl) <;> rfl
  · intro args hlen
    rw [hcall]
    match args, hlen with
    | .nil, _ => rfl
    | .cons _ .nil, hlen => simp [Args.len] at hlen
    | .cons _ (.cons _ _), _ => rfl

/-- C16 at `isEmpty(noexit)`, the identifier being bound to nothing in the data
source of `engine_test.go`. -/
theorem isEmpty_semantics_witness :
    eval Regexp.literal (.Ident "noexit") testDataSource = .ret .nil none ∧
    ∃ b, eval Regexp.literal (.CallExpr (.Ident "isEmpty") (.cons (.Ident "noexit") .nil))
        testDataSource = .ret (.bool b) none ∧
      Run Regexp.literal (.ok (.CallExpr (.Ident "isEmpty") (.cons (.Ident "noexit") .nil)))
        testDataSource = (.bool b, none) ∧
      (b = true ↔ Value.nil = .nil ∨ Value.nil = .string "") ∧
      (Value.nil = .int64 0 ∨ Value.nil = .float64 (Float64.ofInt 0) ∨ Value.nil = .bool false ∨
        Value.nil = .strings [] ∨ Value.nil = .int64s [] ∨ Value.nil = .ints [] ∨
        Value.nil = .mapping [] → b = false) :=
  ⟨rfl, (@isEmpty_semantics Regexp.literal testDataSource (.Ident "noexit") .nil rfl).1⟩

/-! ## C17: literals -/

theorem le_foldl_digits (cs : List Char) (n : Nat) :
    n ≤ cs.foldl (fun n c => n * 10 + (c.toNat - 48)) n := by
  induction cs generalizing n with
  | nil => exact le_refl n
  | cons c t ih =>
    simp only [List.foldl_cons]
    exact le_trans (by omega) (ih _)

theorem parseUintLoop_digits (cs : List Char) (n : Nat)
    (hd : ∀ c ∈ cs, '0' ≤ c ∧ c ≤ '9')
    (hv : cs.foldl (fun n c => n * 10 + (c.toNat - 48)) n < 2 ^ 64) :
    parseUintLoop cs n = (cs.foldl (fun n c => n * 10 + (c.toNat - 48)) n, none) := by
  induction cs generalizing n with
  | nil => rfl
  | cons c t ih =>
    have hc := hd c (by simp)
    simp only [List.foldl_cons] at hv ⊢
    have hle := le_foldl_digits t (n * 10 + (c.toNat - 48))
    have h1 : ¬ (2 ^ 64 / 10 + 1 ≤ n) := by
      norm_num at hv ⊢
      omega
    have h2 : ¬ (2 ^ 64 - 1 < n * 10 + (c.toNat - 48)) := by
      norm_num at hv ⊢
      omega
    rw [parseUintLoop, if_pos hc, if_neg h1, if_neg h2]
    exact ih _ (fun d hdm => hd d (by simp [hdm])) hv

theorem parseInt_digits (text : GoString) (hne : text.chars ≠ [])
    (hd : ∀ c ∈ text.chars, '0' ≤ c ∧ c ≤ '9')
    (hv : (decimalValue text.chars : Int) ≤ maxInt64) :
    parseInt text = ((decimalValue text.chars : Int), none) := by
  have hv2 : decimalValue text.chars < 2 ^ 63 := by
    unfold maxInt64 at hv
    have : (decimalValue text.chars : Int) < 2 ^ 63 := by omega
    exact_mod_cast this
  have hloop := parseUintLoop_digits text.chars 0 hd
    (lt_trans hv2 (by norm_num))
  unfold parseInt
  cases hdata : text.chars with
  | nil => exact absurd hdata hne
  | cons c cs =>
    have hc := hd c (by simp [hdata])
    have hplus : c ≠ '+' := by
      rintro rfl
      exact absurd hc.1 (by decide)
    have hminus : c ≠ '-' := by
      rintro rfl
      exact absurd hc.1 (by decide)
    rw [hdata] at hloop hv2
    have hge : ¬ (2 ^ 63 ≤ decimalValue (c :: cs)) := by omega
    simp only [hplus, hminus, or_self, if_false, parseUint, hloop, decide_False]
    simp [decimalValue, hge]
    simpa [decimalValue] using hv2

theorem evalBasicLit_string (t : GoString) (h : 2 ≤ t.length) :
    ∃ first last body, t.bytes = first :: (body ++ [last]) ∧
      evalBasicLit .STRING t = .ret (.string (GoString.mk body)) none := by
  obtain ⟨l⟩ := t
  have hl : 2 ≤ l.length := h
  match l, hl with
  | first :: rest, hl =>
    have hrest : rest ≠ [] := by
      rintro rfl
      simp at hl
    have hsplit : first :: rest = first :: (rest.dropLast ++ [rest.getLast hrest]) := by
      rw [List.dropLast_append_getLast hrest]
    refine ⟨first, rest.getLast hrest, rest.dropLast, hsplit, ?_⟩
    rw [hsplit]
    simp only [evalBasicLit, GoString.slice_inner]

/-- The encoding of a character of code below 128 is the byte of that code. -/
theorem GoString.utf8_ascii (c : Char) (h : c.toNat < 128) :
    GoString.utf8 c = [c.toNat.toUInt8] := by
  simp [GoString.utf8, h]

/-- A text between two characters of code below 128, as a Go string. -/
theorem GoString.ofString_delimited (q1 q2 : Char) (body : List Char)
    (h1 : q1.toNat < 128) (h2 : q2.toNat < 128) :
    GoString.ofString (String.mk (q1 :: (body ++ [q2])))
      = ⟨q1.toNat.toUInt8 ::
          ((GoString.ofString (String.mk body)).bytes ++ [q2.toNat.toUInt8])⟩ := by
  simp [GoString.ofString, GoString.utf8_ascii q1 h1, GoString.utf8_ascii q2 h2]

/-- The bytes of a text of characters of code below 128 are these characters. -/
theorem GoString.chars_ofString (cs : List Char) (h : ∀ c ∈ cs, c.toNat < 128) :
    (GoString.ofString (String.mk cs)).chars = cs := by
  induction cs with
  | nil => rfl
  | cons c t ih =>
    have hc := h c (by simp)
    have ht := ih (fun d hd => h d (by simp [hd]))
    have hb : (c.toNat.toUInt8).toNat = c.toNat := by
      show c.toNat % 256 = c.toNat
      omega
    simp only [GoString.chars, GoString.ofString, List.flatMap_cons, GoString.utf8_ascii c hc,
      List.singleton_append, List.map_cons, hb, Char.ofNat_toNat] at ht ⊢
    rw [ht]

theorem digit_toNat_lt (c : Char) (h : '0' ≤ c ∧ c ≤ '9') : c.toNat < 128 := by
  have h2 : c.val ≤ '9'.val := h.2
  have h3 : c.val.toNat ≤ ('9' : Char).val.toNat := h2
  have h4 : ('9' : Char).val.toNat = 57 := by decide
  show c.val.toNat < 128
  omega

/-- C17: an integer literal whose text is a non-empty string of decimal digits
of value at most 2^63-1 evaluates, with no error, to the Int64 of that base-10
value; a string literal, whose raw text has at least two bytes, evaluates to
that text less its first and last byte, the rest unchanged, which is the text
less its first and last character when these are characters of one byte, as
the delimiters of a string literal are; a literal of a kind other than
integer, float and string fails with an error. -/
theorem literal_evaluation (rx : Regexp) (env : Env) :
    (∀ digits : List Char, digits ≠ [] → (∀ c ∈ digits, '0' ≤ c ∧ c ≤ '9') →
      (decimalValue digits : Int) ≤ maxInt64 →
      eval rx (.BasicLit .INT (GoString.ofString (String.mk digits))) env
        = .ret (.int64 (decimalValue digits)) none) ∧
    (∀ t : GoString, 2 ≤ t.length →
      ∃ first last body, t.bytes = first :: (body ++ [last]) ∧
        eval rx (.BasicLit .STRING t) env = .ret (.string (GoString.mk body)) none) ∧
    (∀ (q1 q2 : Char) (body : List Char), q1.toNat < 128 → q2.toNat < 128 →
      eval rx (.BasicLit .STRING (GoString.ofString (String.mk (q1 :: (body ++ [q2]))))) env
        = .ret (.string (GoString.ofString (String.mk body))) none) ∧
    (∀ (kind : Token) (text : GoString), kind ≠ .INT → kind ≠ .FLOAT → kind ≠ .STRING →
      eval rx (.BasicLit kind text) env = .ret .nil (some .unsupportedBasicLit) ∧
      (eval rx (.BasicLit kind text) env).failed = true) := by
  refine ⟨?_, ?_, ?_, ?_⟩
  · intro digits hne hd hv
    have hch : (GoString.ofString (String.mk digits)).chars = digits :=
      GoString.chars_ofString digits (fun c hc => digit_toNat_lt c (hd c hc))
    rw [eval_int_literal, parseInt_digits _ (by rw [hch]; exact hne) (by rw [hch]; exact hd)
      (by rw [hch]; exact hv), hch]
  · intro t ht
    obtain ⟨first, last, body, hdata, hev⟩ := evalBasicLit_string t ht
    exact ⟨first, last, body, hdata, by simpa [eval] using hev⟩
  · intro q1 q2 body h1 h2
    rw [GoString.ofString_delimited q1 q2 body h1 h2]
    simp only [eval, evalBasicLit, GoString.slice_inner]
  · intro kind text h1 h2 h3
    have hev : eval rx (.BasicLit kind text) env = .ret .nil (some .unsupportedBasicLit) := by
      cases kind <;> simp_all [eval, evalBasicLit]
    exact ⟨hev, by rw [hev]; rfl⟩

/-- C17 at `01230` of `engine_test.go`, which is 1230 and not an octal number,
at a string literal with a backslash, which is kept, at a string literal with
characters of two bytes, and at the raw text `éxé` without delimiters, of which
the first and the last byte go. -/
theorem literal_evaluation_witness :
    ("01230".data ≠ [] ∧ (∀ c ∈ "01230".data, '0' ≤ c ∧ c ≤ '9') ∧
      (decimalValue "01230".data : Int) ≤ maxInt64) ∧
    eval Regexp.literal (.BasicLit .INT "01230") testDataSource = .ret (.int64 1230) none ∧
    eval Regexp.literal (.BasicLit .STRING "\"a\\nb\"") testDataSource
      = .ret (.string "a\\nb") none ∧
    eval Regexp.literal (.BasicLit .STRING "\"éxé\"") testDataSource
      = .ret (.string "éxé") none ∧
    eval Regexp.literal (.BasicLit .STRING "éxé") testDataSource
      = .ret (.string ⟨[0xa9, 0x78, 0xc3]⟩) none ∧
    eval Regexp.literal (.BasicLit .STRING "é") testDataSource = .ret (.string "") none :=
  have h1 : "01230".data ≠ [] := by decide
  have h2 : ∀ c ∈ "01230".data, '0' ≤ c ∧ c ≤ '9' := by decide
  have h3 : (decimalValue "01230".data : Int) ≤ maxInt64 := by decide
  ⟨⟨h1, h2, h3⟩, (literal_evaluation Regexp.literal testDataSource).1 "01230".data h1 h2 h3,
    (literal_evaluation Regexp.literal testDataSource).2.2.1 '"' '"' "a\\nb".data
      (by decide) (by decide),
    (literal_evaluation Regexp.literal testDataSource).2.2.1 '"' '"' "éxé".data
      (by decide) (by decide), rfl, rfl⟩

/-! ## C18: the limit of `findAllString` -/

/-- C18, at `findAllString("a", "aXa", 1)` and `findAllString("a", "aXa", -1)`
and in general: a limit that is an Int64, as every integer literal and negated
literal is, fails the type assertion `arg2.(int)`, so `Run` returns Nil and an
error, whatever the pattern and the subject; a limit that is an `int` of the
data source is accepted. -/
theorem findAllString_int64_limit (rx : Regexp) (arg0 arg1 : Value) (p s : GoString) (n : Int) :
    Run Regexp.literal (.ok (.CallExpr (.Ident "findAllString")
        (.cons (.BasicLit .STRING "\"a\"") (.cons (.BasicLit .STRING "\"aXa\"")
          (.cons (.BasicLit .INT "1") .nil))))) testDataSource
      = (.nil, some (.recovered .typeAssertion)) ∧
    Run Regexp.literal (.ok (.CallExpr (.Ident "findAllString")
        (.cons (.BasicLit .STRING "\"a\"") (.cons (.BasicLit .STRING "\"aXa\"")
          (.cons (.UnaryExpr .SUB (.BasicLit .INT "1")) .nil))))) testDataSource
      = (.nil, some (.recovered .typeAssertion)) ∧
    Run Regexp.literal (.ok (.CallExpr (.Ident "findAllString")
        (.cons (.BasicLit .STRING "\"a\"") (.cons (.BasicLit .STRING "\"aXa\"")
          (.cons (.Ident "it2") .nil))))) testDataSource
      = (.strings ["a", "a"], none) ∧
    (findAllStringValue rx arg0 arg1 (.int64 n)).failed = true ∧
    (rx.compile p = true →
      findAllStringValue rx (.string p) (.string s) (.int64 n) = .panic .typeAssertion ∧
      findAllStringValue rx (.string p) (.string s) (.int n)
        = .ret (.strings (rx.findAllString p s n)) none) := by
  refine ⟨rfl, rfl, rfl, ?_, ?_⟩
  · cases arg0 <;> try rfl
    rename_i pattern
    cases hc : rx.compile pattern <;> cases arg1 <;> simp [findAllStringValue, hc, Res.failed]
  · intro hc
    simp [findAllStringValue, hc]

/-- The comment above `findAllString` in `method.go` gives it the two arguments
`(s string, n int)`; the function takes three, the pattern first, and with two
it returns `false` and the error of a wrong argument list. -/
theorem findAllString_two_arguments :
    Run Regexp.literal (.ok (.CallExpr (.Ident "findAllString")
        (.cons (.BasicLit .STRING "\"aXa\"") (.cons (.Ident "it2") .nil)))) testDataSource
      = (.bool false, some .invalidArgs) := by
  rfl

/-! ## C19: an integer next to a Float -/

theorem Decimal.add_comm (a b : Decimal) : a.add b = b.add a := by
  simp only [Decimal.add, min_comm a.exp b.exp]
  rw [Int.add_comm]

theorem Decimal.mul_comm (a b : Decimal) : a.mul b = b.mul a := by
  simp only [Decimal.mul]
  rw [Int.mul_comm, Int.add_comm]

theorem floatCal_add_comm (l r : Float64) : floatCal l r '+' = floatCal r l '+' := by
  unfold floatCal
  cases Decimal.newFromFloat l <;> cases Decimal.newFromFloat r <;>
    simp [Decimal.add_comm]

theorem floatCal_mul_comm (l r : Float64) : floatCal l r '*' = floatCal r l '*' := by
  unfold floatCal
  cases Decimal.newFromFloat l <;> cases Decimal.newFromFloat r <;>
    simp [Decimal.mul_comm]

/-- C19, at `2.0 == 2` and in general: a Float on the left of `==` is never
equal to an integer on the right, while `2 == 2.0` is true; for `+` and `*` an
integer of either width and a Float give the same result in both orders, the
one computed on `float(a)` and the Float. -/
theorem float_eq_int_is_false (rx : Regexp) (a : Int) (b : Float64) :
    Run rx (.ok (.BinaryExpr (.BasicLit .FLOAT "2.0") .EQL (.BasicLit .INT "2"))) testDataSource
      = (.bool false, none) ∧
    Run rx (.ok (.BinaryExpr (.BasicLit .INT "2") .EQL (.BasicLit .FLOAT "2.0"))) testDataSource
      = (.bool true, none) ∧
    binaryValue .EQL (.float64 b) (.int64 a) = .ret (.bool false) none ∧
    binaryValue .EQL (.float64 b) (.int a) = .ret (.bool false) none ∧
    binaryValue .EQL (.int64 a) (.float64 b) = .ret (.bool (Float64.eq (Float64.ofInt a) b)) none ∧
    binaryValue .EQL (.int a) (.float64 b) = .ret (.bool (Float64.eq (Float64.ofInt a) b)) none ∧
    (binaryValue .ADD (.int64 a) (.float64 b) = binaryValue .ADD (.float64 b) (.int64 a) ∧
      binaryValue .ADD (.int a) (.float64 b) = binaryValue .ADD (.float64 b) (.int a) ∧
      binaryValue .ADD (.int64 a) (.float64 b)
        = binaryValue .ADD (.float64 (Float64.ofInt a)) (.float64 b) ∧
      binaryValue .ADD (.int a) (.float64 b)
        = binaryValue .ADD (.float64 (Float64.ofInt a)) (.float64 b)) ∧
    (binaryValue .MUL (.int64 a) (.float64 b) = binaryValue .MUL (.float64 b) (.int64 a) ∧
      binaryValue .MUL (.int a) (.float64 b) = binaryValue .MUL (.float64 b) (.int a) ∧
      binaryValue .MUL (.int64 a) (.float64 b)
        = binaryValue .MUL (.float64 (Float64.ofInt a)) (.float64 b) ∧
      binaryValue .MUL (.int a) (.float64 b)
        = binaryValue .MUL (.float64 (Float64.ofInt a)) (.float64 b)) := by
  have hadd : binaryValue .ADD (.int64 a) (.float64 b)
      = binaryValue .ADD (.float64 b) (.int64 a) := by
    simp [binaryValue, binaryInt64, binaryFloat64, floatCalRes, floatCal_add_comm b]
  have hmul : binaryValue .MUL (.int64 a) (.float64 b)
      = binaryValue .MUL (.float64 b) (.int64 a) := by
    simp [binaryValue, binaryInt64, binaryFloat64, floatCalRes, floatCal_mul_comm b]
  exact ⟨rfl, rfl, rfl, rfl, rfl, rfl, ⟨hadd, hadd, rfl, rfl⟩, ⟨hmul, hmul, rfl, rfl⟩⟩

/-! ## Rounding to the nearest `float64` -/

namespace Float64

theorem log2Aux_spec : ∀ (fuel n : Nat), 0 < n → n ≤ fuel →
    2 ^ log2Aux fuel n ≤ n ∧ n < 2 ^ (log2Aux fuel n + 1)
  | 0, n, h0, h => by omega
  | fuel + 1, n, h0, h => by
    unfold log2Aux
    by_cases h2 : n < 2
    · rw [if_pos h2]
      have : n = 1 := by omega
      subst this
      norm_num
    · rw [if_neg h2]
      have ih := log2Aux_spec fuel (n / 2) (by omega) (by omega)
      set L := log2Aux fuel (n / 2)
      rw [pow_succ, pow_succ]
      rw [pow_succ] at ih
      omega

theorem log2_spec (n : Nat) (h : 0 < n) : 2 ^ log2 n ≤ n ∧ n < 2 ^ (log2 n + 1) :=
  log2Aux_spec n n h (le_refl n)

theorem pow_toNat_div (b : ℚ) (k : Int) :
    (b ^ (-k).toNat) / (b ^ k.toNat) = b ^ (-k) := by
  rcases le_total 0 k with h | h
  · have h1 : (-k).toNat = 0 := by omega
    have h2 : ((k.toNat : Nat) : Int) = k := by omega
    rw [h1, pow_zero, zpow_neg, one_div, ← zpow_natCast, h2]
  · have h1 : k.toNat = 0 := by omega
    have h2 : (((-k).toNat : Nat) : Int) = -k := by omega
    rw [h1, pow_zero, div_one, ← zpow_natCast, h2]

theorem scaled_eq (n d : Nat) (k : Int) :
    ((n * 2 ^ (-k).toNat : Nat) : ℚ) / ((d * 2 ^ k.toNat : Nat) : ℚ)
      = (n : ℚ) / d * (2 : ℚ) ^ (-k) := by
  push_cast
  rw [mul_div_mul_comm, pow_toNat_div 2 k]

theorem round_aux (num den A B r : Int) (hnum : num = A + r) (h0 : 0 ≤ r) (hr : r < den)
    (hj : B ≤ A ∨ A + den ≤ B) :
    (den ≤ 2 * r → |num - (A + den)| ≤ |num - B| ∧ 2 * |num - (A + den)| ≤ den) ∧
    (2 * r ≤ den → |num - A| ≤ |num - B| ∧ 2 * |num - A| ≤ den) := by
  constructor
  · intro h
    rcases abs_cases (num - (A + den)) with ⟨e1, _⟩ | ⟨e1, _⟩ <;>
      rcases abs_cases (num - B) with ⟨e2, _⟩ | ⟨e2, _⟩ <;>
      rcases hj with hj | hj <;> constructor <;> omega
  · intro h
    rcases abs_cases (num - A) with ⟨e1, _⟩ | ⟨e1, _⟩ <;>
      rcases abs_cases (num - B) with ⟨e2, _⟩ | ⟨e2, _⟩ <;>
      rcases hj with hj | hj <;> constructor <;> omega

theorem roundHalfEven_int (num den : Nat) (hden : 0 < den) (j : Nat) :
    |(num : Int) - den * roundHalfEven num den| ≤ |(num : Int) - den * j| ∧
    2 * |(num : Int) - den * roundHalfEven num den| ≤ den := by
  have hdm : (num : Int) = (den : Int) * ((num / den : Nat) : Int) + ((num % den : Nat) : Int) := by
    exact_mod_cast (Nat.div_add_mod num den).symm
  have hr : ((num % den : Nat) : Int) < den := by exact_mod_cast Nat.mod_lt num hden
  have hj : (den : Int) * j ≤ (den : Int) * ((num / den : Nat) : Int) ∨
      (den : Int) * ((num / den : Nat) : Int) + den ≤ (den : Int) * j := by
    rcases (by omega : j ≤ num / den ∨ num / den + 1 ≤ j) with h | h
    · left
      exact_mod_cast Nat.mul_le_mul_left den h
    · right
      have := Nat.mul_le_mul_left den h
      rw [Nat.mul_add, Nat.mul_one] at this
      exact_mod_cast this
  have key := round_aux (num : Int) den ((den : Int) * ((num / den : Nat) : Int))
    ((den : Int) * j) ((num % den : Nat) : Int) hdm (by positivity) hr hj
  unfold roundHalfEven
  split_ifs with hc
  · have h2 : (den : Int) ≤ 2 * ((num % den : Nat) : Int) := by
      have : den ≤ 2 * (num % den) := by omega
      exact_mod_cast this
    have := key.1 h2
    push_cast
    rw [mul_add, mul_one]
    exact this
  · have h2 : 2 * ((num % den : Nat) : Int) ≤ (den : Int) := by
      have : 2 * (num % den) ≤ den := by omega
      exact_mod_cast this
    exact key.2 h2

theorem roundHalfEven_rat (num den : Nat) (hden : 0 < den) (j : Nat) :
    |(num : ℚ) / den - roundHalfEven num den| ≤ |(num : ℚ) / den - j| ∧
    |(num : ℚ) / den - roundHalfEven num den| ≤ 1 / 2 := by
  have hd : (0 : ℚ) < den := by exact_mod_cast hden
  have hform : ∀ t : Nat, (num : ℚ) / den - t = (((num : Int) - den * t : Int) : ℚ) / den := by
    intro t
    push_cast
    field_simp
  obtain ⟨h1, h2⟩ := roundHalfEven_int num den hden j
  rw [hform, hform j, abs_div, abs_div, abs_of_pos hd]
  constructor
  · apply div_le_div_of_nonneg_right _ hd.le
    rw [← Int.cast_abs, ← Int.cast_abs]
    exact_mod_cast h1
  · rw [div_le_iff₀ hd, ← Int.cast_abs]
    have : ((2 * |(num : Int) - den * roundHalfEven num den| : Int) : ℚ) ≤ ((den : Int) : ℚ) := by
      exact_mod_cast h2
    push_cast at this ⊢
    linarith

theorem bracket0 (n d : Nat) (hn : 0 < n) (hd : 0 < d) :
    (2 : ℚ) ^ 51 < (n : ℚ) / d * (2 : ℚ) ^ (-((log2 n : Int) - (log2 d : Int) - 52)) ∧
    (n : ℚ) / d * (2 : ℚ) ^ (-((log2 n : Int) - (log2 d : Int) - 52)) < (2 : ℚ) ^ 53 := by
  have h2 : (2 : ℚ) ≠ 0 := by norm_num
  obtain ⟨hn1, hn2⟩ := log2_spec n hn
  obtain ⟨hd1, hd2⟩ := log2_spec d hd
  have hn1' : (2 : ℚ) ^ log2 n ≤ n := by exact_mod_cast hn1
  have hn2' : (n : ℚ) < 2 * 2 ^ log2 n := by
    have : (n : ℚ) < 2 ^ (log2 n + 1) := by exact_mod_cast hn2
    rwa [pow_succ, mul_comm] at this
  have hd1' : (2 : ℚ) ^ log2 d ≤ d := by exact_mod_cast hd1
  have hd2' : (d : ℚ) < 2 * 2 ^ log2 d := by
    have : (d : ℚ) < 2 ^ (log2 d + 1) := by exact_mod_cast hd2
    rwa [pow_succ, mul_comm] at this
  have hP : (0 : ℚ) < 2 ^ log2 n := by positivity
  have hQ : (0 : ℚ) < 2 ^ log2 d := by positivity
  have hdq : (0 : ℚ) < d := by exact_mod_cast hd
  have hnq : (0 : ℚ) < n := by exact_mod_cast hn
  have e : (2 : ℚ) ^ (-((log2 n : Int) - (log2 d : Int) - 52))
      = 2 ^ log2 d * 2 ^ 52 / 2 ^ log2 n := by
    have : -((log2 n : Int) - (log2 d : Int) - 52) = ((log2 d : Int) + (52 : Nat)) - (log2 n : Int) := by
      push_cast; ring
    rw [this, zpow_sub₀ h2, zpow_add₀ h2, zpow_natCast, zpow_natCast, zpow_natCast]
  rw [e]
  have hform : (n : ℚ) / d * (2 ^ log2 d * 2 ^ 52 / 2 ^ log2 n)
      = (n * 2 ^ log2 d * 2 ^ 52) / (d * 2 ^ log2 n) := by
    field_simp
    ring
  rw [hform]
  have hden : (0 : ℚ) < d * 2 ^ log2 n := by positivity
  constructor
  · rw [lt_div_iff₀ hden]
    nlinarith [mul_pos hdq hP, mul_pos hnq hQ, mul_le_mul_of_nonneg_left hn1' hQ.le,
      mul_lt_mul_of_pos_right hd2' hP]
  · rw [div_lt_iff₀ hden]
    nlinarith [mul_pos hdq hP, mul_pos hnq hQ, mul_le_mul_of_nonneg_left hd1' hP.le,
      mul_lt_mul_of_pos_right hn2' hQ]

theorem bracket1 (n d : Nat) (hn : 0 < n) (hd : 0 < d) :
    (2 : ℚ) ^ 52 ≤ (n : ℚ) / d * (2 : ℚ) ^ (-(lastBitExp n d)) ∧
    (n : ℚ) / d * (2 : ℚ) ^ (-(lastBitExp n d)) < (2 : ℚ) ^ 53 := by
  have h2 : (2 : ℚ) ≠ 0 := by norm_num
  obtain ⟨hlo, hhi⟩ := bracket0 n d hn hd
  unfold lastBitExp
  set k0 : Int := (log2 n : Int) - (log2 d : Int) - 52 with hk0
  have hden : (0 : ℚ) < ((d * 2 ^ k0.toNat : Nat) : ℚ) := by
    have : 0 < d * 2 ^ k0.toNat := Nat.mul_pos hd (by positivity)
    exact_mod_cast this
  have hsc := scaled_eq n d k0
  simp only []
  split_ifs with hc
  · refine ⟨?_, hhi⟩
    rw [← hsc, le_div_iff₀ hden]
    have : ((d * 2 ^ k0.toNat * 2 ^ 52 : Nat) : ℚ) ≤ ((n * 2 ^ (-k0).toNat : Nat) : ℚ) := by
      exact_mod_cast hc
    push_cast at this ⊢
    linarith
  · have hlt : (n : ℚ) / d * (2 : ℚ) ^ (-k0) < 2 ^ 52 := by
      rw [← hsc, div_lt_iff₀ hden]
      have : ((n * 2 ^ (-k0).toNat : Nat) : ℚ) < ((d * 2 ^ k0.toNat * 2 ^ 52 : Nat) : ℚ) := by
        exact_mod_cast (not_le.mp hc)
      push_cast at this ⊢
      linarith
    have e : (2 : ℚ) ^ (-(k0 - 1)) = 2 * 2 ^ (-k0) := by
      have : -(k0 - 1) = 1 + -k0 := by ring
      rw [this, zpow_add₀ h2, zpow_one]
    rw [e]
    constructor
    · nlinarith
    · nlinarith

theorem roundRat_unfold (neg : Bool) (n d : Nat) (hd : d ≠ 0) (hn : n ≠ 0) :
    roundRat neg n d =
      (if 971 <
          (if roundHalfEven (n * 2 ^ (-(max (lastBitExp n d) (-1074))).toNat)
                (d * 2 ^ (max (lastBitExp n d) (-1074)).toNat) = 2 ^ 53
            then max (lastBitExp n d) (-1074) + 1 else max (lastBitExp n d) (-1074))
        then inf neg
        else fin neg
          (if roundHalfEven (n * 2 ^ (-(max (lastBitExp n d) (-1074))).toNat)
                (d * 2 ^ (max (lastBitExp n d) (-1074)).toNat) = 2 ^ 53
            then 2 ^ 52
            else roundHalfEven (n * 2 ^ (-(max (lastBitExp n d) (-1074))).toNat)
                (d * 2 ^ (max (lastBitExp n d) (-1074)).toNat))
          (if roundHalfEven (n * 2 ^ (-(max (lastBitExp n d) (-1074))).toNat)
                (d * 2 ^ (max (lastBitExp n d) (-1074)).toNat) = 2 ^ 53
            then max (lastBitExp n d) (-1074) + 1 else max (lastBitExp n d) (-1074))) := by
  unfold roundRat
  rw [if_neg hd, if_neg hn]
  rfl

theorem abs_sub_mul_pow (y t P : ℚ) (hP : 0 < P) : |y * P - t * P| = P * |y - t| := by
  rw [← sub_mul, abs_mul, abs_of_pos hP, mul_comm]

/-- The finite results of `roundRat` are `float64` data, and no `float64` is
nearer to `n / d`. -/
theorem roundRat_nearest (neg : Bool) (n d : Nat) (hd : d ≠ 0) (s : Bool) (m : Nat) (e : Int)
    (h : roundRat neg n d = fin s m e) :
    s = neg ∧ m < 2 ^ 53 ∧ -1074 ≤ e ∧ e ≤ 971 ∧
    ∀ (m' : Nat) (e' : Int), -1074 ≤ e' → m' < 2 ^ 53 →
      |(n : ℚ) / d - (m : ℚ) * (2 : ℚ) ^ e| ≤ |(n : ℚ) / d - (m' : ℚ) * (2 : ℚ) ^ e'| := by
  have h2 : (2 : ℚ) ≠ 0 := by norm_num
  by_cases hn : n = 0
  · subst hn
    simp only [roundRat, if_neg hd, if_true] at h
    injection h with h1 h2 h3
    subst h1 h2 h3
    refine ⟨rfl, by norm_num, le_refl _, by norm_num, ?_⟩
    intro m' e' _ _
    simp
  · have hnpos : 0 < n := Nat.pos_of_ne_zero hn
    have hdpos : 0 < d := Nat.pos_of_ne_zero hd
    rw [roundRat_unfold neg n d hd hn] at h
    set k : Int := max (lastBitExp n d) (-1074) with hk
    set num := n * 2 ^ (-k).toNat with hnum
    set den := d * 2 ^ k.toNat with hden
    set q1 := roundHalfEven num den with hq1
    have hdenpos : 0 < den := Nat.mul_pos hdpos (by positivity)
    have hP : (0 : ℚ) < (2 : ℚ) ^ k := by positivity
    have hx : (0 : ℚ) ≤ (n : ℚ) / d := by positivity
    -- the scaled value
    have hy : (num : ℚ) / den = (n : ℚ) / d * (2 : ℚ) ^ (-k) := scaled_eq n d k
    have hxy : (n : ℚ) / d = (num : ℚ) / den * (2 : ℚ) ^ k := by
      rw [hy, mul_assoc, ← zpow_add₀ h2]
      simp
    obtain ⟨hb1, hb2⟩ := bracket1 n d hnpos hdpos
    have hkge : lastBitExp n d ≤ k := le_max_left _ _
    have hk1074 : -1074 ≤ k := le_max_right _ _
    have hylt : (num : ℚ) / den < 2 ^ 53 := by
      rw [hy]
      have : (2 : ℚ) ^ (-k) ≤ (2 : ℚ) ^ (-(lastBitExp n d)) :=
        zpow_le_zpow_right₀ (by norm_num) (by omega)
      calc (n : ℚ) / d * (2 : ℚ) ^ (-k) ≤ (n : ℚ) / d * (2 : ℚ) ^ (-(lastBitExp n d)) :=
            mul_le_mul_of_nonneg_left this hx
        _ < 2 ^ 53 := hb2
    have hhalf := (roundHalfEven_rat num den hdenpos 0).2
    rw [← hq1] at hhalf
    have hq1le : q1 ≤ 2 ^ 53 := by
      have : (q1 : ℚ) < 2 ^ 53 + 1 := by
        have := (abs_le.mp hhalf).1
        linarith
      have : q1 < 2 ^ 53 + 1 := by exact_mod_cast this
      omega
    have hnear : ∀ (m' : Nat) (e' : Int), -1074 ≤ e' → m' < 2 ^ 53 →
        |(n : ℚ) / d - (q1 : ℚ) * (2 : ℚ) ^ k| ≤ |(n : ℚ) / d - (m' : ℚ) * (2 : ℚ) ^ e'| := by
      intro m' e' he' hm'
      rw [hxy, abs_sub_mul_pow _ _ _ hP]
      rcases le_or_lt k e' with hke | hke
      · have hpow : (2 : ℚ) ^ e' = ((2 ^ (e' - k).toNat : Nat) : ℚ) * (2 : ℚ) ^ k := by
          have : e' = (((e' - k).toNat : Nat) : Int) + k := by omega
          conv_lhs => rw [this, zpow_add₀ h2, zpow_natCast]
          push_cast
          ring
        have hc : (m' : ℚ) * (2 : ℚ) ^ e' = ((m' * 2 ^ (e' - k).toNat : Nat) : ℚ) * (2 : ℚ) ^ k := by
          rw [hpow]
          push_cast
          ring
        rw [hc, abs_sub_mul_pow _ _ _ hP]
        exact mul_le_mul_of_nonneg_left (roundHalfEven_rat num den hdenpos _).1 hP.le
      · have hkk : k = lastBitExp n d := by omega
        have hy52 : (2 : ℚ) ^ 52 ≤ (num : ℚ) / den := by
          rw [hy, hkk]
          exact hb1
        have hpow : (2 : ℚ) ^ e' = (2 : ℚ) ^ (e' - k) * (2 : ℚ) ^ k := by
          rw [← zpow_add₀ h2]
          congr 1
          ring
        have hsmall : (2 : ℚ) ^ (e' - k) ≤ 1 / 2 := by
          have : (2 : ℚ) ^ (e' - k) ≤ (2 : ℚ) ^ (-1 : Int) :=
            zpow_le_zpow_right₀ (by norm_num) (by omega)
          simpa using this
        have hm'q : (m' : ℚ) ≤ 2 ^ 53 - 1 := by
          have : m' + 1 ≤ 2 ^ 53 := by omega
          have : ((m' + 1 : Nat) : ℚ) ≤ ((2 ^ 53 : Nat) : ℚ) := by exact_mod_cast this
          push_cast at this
          linarith
        have hpos : (0 : ℚ) ≤ (2 : ℚ) ^ (e' - k) := by positivity
        have ht : (m' : ℚ) * (2 : ℚ) ^ (e' - k) ≤ 2 ^ 52 - 1 / 2 := by
          calc (m' : ℚ) * (2 : ℚ) ^ (e' - k) ≤ (2 ^ 53 - 1) * (2 : ℚ) ^ (e' - k) :=
                mul_le_mul_of_nonneg_right hm'q hpos
            _ ≤ (2 ^ 53 - 1) * (1 / 2) := mul_le_mul_of_nonneg_left hsmall (by norm_num)
            _ = 2 ^ 52 - 1 / 2 := by norm_num
        have hc : (m' : ℚ) * (2 : ℚ) ^ e' = ((m' : ℚ) * (2 : ℚ) ^ (e' - k)) * (2 : ℚ) ^ k := by
          rw [hpow]
          ring
        rw [hc, abs_sub_mul_pow _ _ _ hP]
        apply mul_le_mul_of_nonneg_left _ hP.le
        calc |(num : ℚ) / den - q1| ≤ 1 / 2 := hhalf
          _ ≤ (num : ℚ) / den - (m' : ℚ) * (2 : ℚ) ^ (e' - k) := by linarith
          _ ≤ |(num : ℚ) / den - (m' : ℚ) * (2 : ℚ) ^ (e' - k)| := le_abs_self _
    by_cases hcarry : q1 = 2 ^ 53
    · simp only [hcarry, if_true] at h
      by_cases hover : 971 < k + 1
      · simp [hover] at h
      · rw [if_neg hover] at h
        injection h with h1 h2 h3
        subst h1 h2 h3
        have hval : ((2 ^ 52 : Nat) : ℚ) * (2 : ℚ) ^ (k + 1) = (q1 : ℚ) * (2 : ℚ) ^ k := by
          rw [hcarry, zpow_add₀ h2, zpow_one]
          push_cast
          ring
        refine ⟨rfl, by norm_num, by omega, by omega, ?_⟩
        intro m' e' he' hm'
        rw [hval]
        exact hnear m' e' he' hm'
    · simp only [hcarry, if_false] at h
      by_cases hover : 971 < k
      · simp [hover] at h
      · rw [if_neg hover] at h
        injection h with h1 h2 h3
        subst h1 h2 h3
        refine ⟨rfl, by omega, hk1074, by omega, ?_⟩
        intro m' e' he' hm'
        exact hnear m' e' he' hm'

end Float64

theorem signed_nearest (A F C : ℚ) (hA : 0 ≤ A) (hC : 0 ≤ C) (h1 : |A - F| ≤ |A - C|)
    (h0 : |A - F| ≤ |A|) (s t : Bool) :
    |(if s then -1 else 1) * A - (if s then -1 else 1) * F|
      ≤ |(if s then -1 else 1) * A - (if t then -1 else 1) * C| := by
  have hAC : |A - F| ≤ |A + C| := by
    rw [abs_of_nonneg hA] at h0
    rw [abs_of_nonneg (add_nonneg hA hC)]
    linarith
  cases s <;> cases t <;> simp only [Bool.false_eq_true, if_false, if_true, one_mul]
  · exact h1
  · have e : A - -1 * C = A + C := by ring
    rw [e]
    exact hAC
  · have e1 : -1 * A - -1 * F = -(A - F) := by ring
    have e2 : -1 * A - C = -(A + C) := by ring
    rw [e1, e2, abs_neg, abs_neg]
    exact hAC
  · have e1 : -1 * A - -1 * F = -(A - F) := by ring
    have e2 : -1 * A - -1 * C = -(A - C) := by ring
    rw [e1, e2, abs_neg, abs_neg]
    exact h1

theorem Float64.roundRat_nearestTo (neg : Bool) (n d : Nat) (hd : d ≠ 0) (s : Bool) (m : Nat)
    (e : Int) (h : Float64.roundRat neg n d = .fin s m e) :
    (Float64.roundRat neg n d).nearestTo ((if neg then -1 else 1) * ((n : ℚ) / d)) := by
  obtain ⟨hs, hm, he1, he2, hnear⟩ := Float64.roundRat_nearest neg n d hd s m e h
  subst hs
  refine ⟨s, m, e, h, ⟨hm, he1, he2⟩, ?_⟩
  intro s' m' e' hrep
  have hA : (0 : ℚ) ≤ (n : ℚ) / d := by positivity
  have hC : (0 : ℚ) ≤ (m' : ℚ) * (2 : ℚ) ^ e' := by positivity
  have h1 := hnear m' e' hrep.2.1 hrep.1
  have h0 := hnear 0 (-1074) (le_refl _) (by norm_num)
  simp only [Nat.cast_zero, zero_mul, sub_zero] at h0
  rw [h]
  simp only [Float64.toRat, mul_assoc]
  exact signed_nearest _ _ _ hA hC h1 h0 s s'

theorem pow_toNat_div' (b : ℚ) (k : Int) : (b ^ k.toNat) / (b ^ (-k).toNat) = b ^ k := by
  have h := Float64.pow_toNat_div b (-k)
  rwa [neg_neg] at h

theorem Decimal.toFloat64_nearestTo (a : Decimal) (s : Bool) (m : Nat) (e : Int)
    (h : a.toFloat64 = .fin s m e) : a.toFloat64.nearestTo a.toRat := by
  have hd : 10 ^ (-a.exp).toNat ≠ 0 := by positivity
  have key := Float64.roundRat_nearestTo (decide (a.value < 0))
    (a.value.natAbs * 10 ^ a.exp.toNat) (10 ^ (-a.exp).toNat) hd s m e h
  have hval : (if decide (a.value < 0) = true then (-1 : ℚ) else 1) *
      (((a.value.natAbs * 10 ^ a.exp.toNat : Nat) : ℚ) / ((10 ^ (-a.exp).toNat : Nat) : ℚ))
      = a.toRat := by
    have habs : (if decide (a.value < 0) = true then (-1 : ℚ) else 1) * (a.value.natAbs : ℚ)
        = (a.value : ℚ) := by
      rw [Nat.cast_natAbs]
      by_cases hneg : a.value < 0
      · simp [hneg, abs_of_neg hneg]
      · have : 0 ≤ a.value := by omega
        simp [hneg, abs_of_nonneg this]
    push_cast
    rw [mul_div_assoc, pow_toNat_div' 10 a.exp, ← mul_assoc, habs]
    rfl
  rw [hval] at key
  exact key

theorem Float64.quo_nearestTo (s t : Bool) (m n : Nat) (e f : Int) (hn : n ≠ 0)
    (s2 : Bool) (m2 : Nat) (e2 : Int)
    (h : Float64.quo (.fin s m e) (.fin t n f) = .fin s2 m2 e2) :
    (Float64.quo (.fin s m e) (.fin t n f)).nearestTo
      ((Float64.fin s m e).toRat / (Float64.fin t n f).toRat) := by
  have hq : Float64.quo (.fin s m e) (.fin t n f)
      = Float64.roundRat (xor s t) (Float64.num2 m e * Float64.den2 f)
          (Float64.num2 n f * Float64.den2 e) := by
    simp [Float64.quo, hn]
  have hd : Float64.num2 n f * Float64.den2 e ≠ 0 := by
    unfold Float64.num2 Float64.den2
    positivity
  rw [hq] at h ⊢
  have key := Float64.roundRat_nearestTo (xor s t) _ _ hd s2 m2 e2 h
  have hnq : (n : ℚ) ≠ 0 := by exact_mod_cast hn
  have hval : (if xor s t = true then (-1 : ℚ) else 1) *
      (((Float64.num2 m e * Float64.den2 f : Nat) : ℚ) /
        ((Float64.num2 n f * Float64.den2 e : Nat) : ℚ))
      = (Float64.fin s m e).toRat / (Float64.fin t n f).toRat := by
    have he := pow_toNat_div' 2 e
    have hf := pow_toNat_div' 2 f
    have hpe : (2 : ℚ) ^ (-e).toNat ≠ 0 := by positivity
    have hpf : (2 : ℚ) ^ (-f).toNat ≠ 0 := by positivity
    have hpf2 : (2 : ℚ) ^ f.toNat ≠ 0 := by positivity
    have hpe2 : (2 : ℚ) ^ e.toNat ≠ 0 := by positivity
    simp only [Float64.toRat, Float64.num2, Float64.den2]
    rw [← he, ← hf]
    push_cast
    generalize (2 : ℚ) ^ e.toNat = a at hpe2 ⊢
    generalize (2 : ℚ) ^ (-e).toNat = b at hpe ⊢
    generalize (2 : ℚ) ^ f.toNat = c at hpf2 ⊢
    generalize (2 : ℚ) ^ (-f).toNat = g at hpf ⊢
    cases s <;> cases t <;>
      simp only [Bool.xor_false, Bool.xor_true, Bool.not_false, Bool.not_true,
        Bool.false_eq_true, if_false, if_true] <;>
      field_simp <;> left <;> ring
  rw [hval] at key
  exact key

theorem Decimal.toFloat64_roundsFrom (a : Decimal) : a.toFloat64.roundsFrom a.toRat := by
  intro hfin
  cases h : a.toFloat64 with
  | nan => rw [h] at hfin; simp [Float64.isFinite] at hfin
  | inf s => rw [h] at hfin; simp [Float64.isFinite] at hfin
  | fin s m e =>
    rw [← h]
    exact Decimal.toFloat64_nearestTo a s m e h

theorem Float64.quo_roundsFrom (l r : Float64) : (Float64.quo l r).roundsFrom (l.toRat / r.toRat) := by
  intro hfin
  cases l with
  | nan => simp [Float64.quo, Float64.isFinite] at hfin
  | inf s =>
    cases r <;> simp [Float64.quo, Float64.isFinite] at hfin
  | fin s m e =>
    cases r with
    | nan => simp [Float64.quo, Float64.isFinite] at hfin
    | inf t =>
      refine ⟨xor s t, 0, -1074, rfl, ⟨by norm_num, le_refl _, by norm_num⟩, ?_⟩
      intro s' m' e' _
      simp [Float64.quo, Float64.toRat]
    | fin t n f =>
      by_cases hn : n = 0
      · subst hn
        by_cases hm : m = 0 <;> simp [Float64.quo, Float64.isFinite, hm] at hfin
      · cases h : Float64.quo (.fin s m e) (.fin t n f) with
        | nan => rw [h] at hfin; simp [Float64.isFinite] at hfin
        | inf s2 => rw [h] at hfin; simp [Float64.isFinite] at hfin
        | fin s2 m2 e2 =>
          rw [← h]
          exact Float64.quo_nearestTo s t m n e f hn s2 m2 e2 h

/-! ## C20: Float arithmetic through decimals -/

theorem Decimal.scale_toRat (v x e : Int) (h : x ≤ e) :
    ((v * 10 ^ (e - x).toNat : Int) : ℚ) * (10 : ℚ) ^ x = (v : ℚ) * (10 : ℚ) ^ e := by
  have h10 : (10 : ℚ) ≠ 0 := by norm_num
  have he : e = (((e - x).toNat : Nat) : Int) + x := by omega
  conv_rhs => rw [he, zpow_add₀ h10, zpow_natCast]
  push_cast
  ring

theorem Decimal.toRat_add (a b : Decimal) : (a.add b).toRat = a.toRat + b.toRat := by
  simp only [Decimal.add, Decimal.toRat]
  push_cast
  rw [add_mul]
  have ha := Decimal.scale_toRat a.value (min a.exp b.exp) a.exp (min_le_left _ _)
  have hb := Decimal.scale_toRat b.value (min a.exp b.exp) b.exp (min_le_right _ _)
  push_cast at ha hb
  rw [ha, hb]

theorem Decimal.toRat_sub (a b : Decimal) : (a.sub b).toRat = a.toRat - b.toRat := by
  simp only [Decimal.sub, Decimal.toRat]
  push_cast
  rw [sub_mul]
  have ha := Decimal.scale_toRat a.value (min a.exp b.exp) a.exp (min_le_left _ _)
  have hb := Decimal.scale_toRat b.value (min a.exp b.exp) b.exp (min_le_right _ _)
  push_cast at ha hb
  rw [ha, hb]

theorem Decimal.toRat_mul (a b : Decimal) : (a.mul b).toRat = a.toRat * b.toRat := by
  have h10 : (10 : ℚ) ≠ 0 := by norm_num
  simp only [Decimal.mul, Decimal.toRat]
  push_cast
  rw [zpow_add₀ h10]
  ring

theorem newFromFloat_of_finite {l : Float64} (h : l.isFinite = true) :
    ∃ d, Decimal.newFromFloat l = some d := by
  cases l with
  | nan => simp [Float64.isFinite] at h
  | inf s => simp [Float64.isFinite] at h
  | fin s m e =>
    show ∃ d, (if m = 0 then some (Decimal.mk 0 0) else _) = some d
    split
    · exact ⟨_, rfl⟩
    · exact ⟨_, rfl⟩

theorem newFromFloat_of_not_finite {l : Float64} (h : l.isFinite = false) :
    Decimal.newFromFloat l = none := by
  cases l with
  | nan => rfl
  | inf s => rfl
  | fin s m e => simp [Float64.isFinite] at h

/-- C20, at `(1.0/0)/2.0` and in general: `floatCal` converts both operands
with `decimal.NewFromFloat` before it looks at the operator, and the conversion
panics on NaN and the infinities, so `l / r` with such an operand panics and
`Run` returns Nil and an error, where the plain `float64` quotient is defined
(`+Inf / 2.0` is `+Inf`, and `1.0/0` itself evaluates to `+Inf`); with finite
operands `l / r` is the `float64` quotient of `l` and `r`. -/
theorem float_quo_converts_operands (rx : Regexp) :
    eval Regexp.literal (.BinaryExpr (.BasicLit .FLOAT "1.0") .QUO (.BasicLit .INT "0"))
      testDataSource = .ret (.float64 (.inf false)) none ∧
    Float64.quo (.inf false) (parseFloat "2.0").1 = .inf false ∧
    Run Regexp.literal
      (.ok (.BinaryExpr
        (.ParenExpr (.BinaryExpr (.BasicLit .FLOAT "1.0") .QUO (.BasicLit .INT "0")))
        .QUO (.BasicLit .FLOAT "2.0"))) testDataSource
      = (.nil, some (.recovered .decimalFromFloat)) ∧
    (∀ (x y : Expr) (env : Env) (l r : Float64),
      eval rx x env = .ret (.float64 l) none → eval rx y env = .ret (.float64 r) none →
      (l.isFinite = false ∨ r.isFinite = false) →
      Run rx (.ok (.BinaryExpr x .QUO y)) env = (.nil, some (.recovered .decimalFromFloat))) ∧
    (∀ (x y : Expr) (env : Env) (l r : Float64),
      eval rx x env = .ret (.float64 l) none → eval rx y env = .ret (.float64 r) none →
      l.isFinite = true → r.isFinite = true →
      Run rx (.ok (.BinaryExpr x .QUO y)) env = (.float64 (Float64.quo l r), none)) := by
  refine ⟨rfl, rfl, rfl, ?_, ?_⟩
  · intro x y env l r hx hy h
    have hnone : floatCal l r '/' = none := by
      unfold floatCal
      rcases h with h | h
      · rw [newFromFloat_of_not_finite h]
      · rw [newFromFloat_of_not_finite h]
        cases Decimal.newFromFloat l <;> rfl
    simp [Run, eval_binary .QUO hx hy, binaryValue, binaryFloat64, floatCalRes, hnone]
  · intro x y env l r hx hy hl hr
    obtain ⟨dl, hdl⟩ := newFromFloat_of_finite hl
    obtain ⟨dr, hdr⟩ := newFromFloat_of_finite hr
    simp [Run, eval_binary .QUO hx hy, binaryValue, binaryFloat64, floatCalRes, floatCal,
      hdl, hdr]

/-- For finite Float operands `l` and `r`, with `dl` and `dr` the
decimals that `decimal.NewFromFloat` gives for them, `l + r`, `l - r` and
`l * r` are the conversion to `float64` of the decimal sum, difference and
product of `dl` and `dr`; these are exact, and the conversion gives a nearest
`float64` unless it overflows, so that `1.223400012 - 1.2` is the Float
0.023400012 and `1.000001*0.2` the Float 0.2000002.  `l / r` is the `float64`
quotient of `l` and `r`, a nearest `float64` to the exact quotient when it is
finite.  When `l` or `r` is NaN or an infinity, all four operators panic. -/
theorem float_arithmetic (rx : Regexp) (l r : Float64) :
    (l.isFinite = true → r.isFinite = true →
      ∃ dl dr, Decimal.newFromFloat l = some dl ∧ Decimal.newFromFloat r = some dr ∧
        binaryValue .ADD (.float64 l) (.float64 r)
          = .ret (.float64 (dl.add dr).toFloat64) none ∧
        (dl.add dr).toFloat64.roundsFrom (dl.toRat + dr.toRat) ∧
        binaryValue .SUB (.float64 l) (.float64 r)
          = .ret (.float64 (dl.sub dr).toFloat64) none ∧
        (dl.sub dr).toFloat64.roundsFrom (dl.toRat - dr.toRat) ∧
        binaryValue .MUL (.float64 l) (.float64 r)
          = .ret (.float64 (dl.mul dr).toFloat64) none ∧
        (dl.mul dr).toFloat64.roundsFrom (dl.toRat * dr.toRat) ∧
        binaryValue .QUO (.float64 l) (.float64 r)
          = .ret (.float64 (Float64.quo l r)) none ∧
        (Float64.quo l r).roundsFrom (l.toRat / r.toRat)) ∧
    (l.isFinite = false ∨ r.isFinite = false →
      binaryValue .ADD (.float64 l) (.float64 r) = .panic .decimalFromFloat ∧
      binaryValue .SUB (.float64 l) (.float64 r) = .panic .decimalFromFloat ∧
      binaryValue .MUL (.float64 l) (.float64 r) = .panic .decimalFromFloat ∧
      binaryValue .QUO (.float64 l) (.float64 r) = .panic .decimalFromFloat) ∧
    Run rx (.ok (.BinaryExpr (.BasicLit .FLOAT "1.223400012") .SUB (.BasicLit .FLOAT "1.2")))
        testDataSource = (.float64 (parseFloat "0.023400012").1, none) ∧
    Run rx (.ok (.BinaryExpr (.BasicLit .FLOAT "1.000001") .MUL (.BasicLit .FLOAT "0.2")))
        testDataSource = (.float64 (parseFloat "0.2000002").1, none) := by
  refine ⟨?_, ?_, rfl, rfl⟩
  · intro hl hr
    obtain ⟨dl, hdl⟩ := newFromFloat_of_finite hl
    obtain ⟨dr, hdr⟩ := newFromFloat_of_finite hr
    refine ⟨dl, dr, hdl, hdr, ?_, ?_, ?_, ?_, ?_, ?_, ?_, ?_⟩
    · simp [binaryValue, binaryFloat64, floatCalRes, floatCal, hdl, hdr]
    · rw [← Decimal.toRat_add]
      exact Decimal.toFloat64_roundsFrom _
    · simp [binaryValue, binaryFloat64, floatCalRes, floatCal, hdl, hdr]
    · rw [← Decimal.toRat_sub]
      exact Decimal.toFloat64_roundsFrom _
    · simp [binaryValue, binaryFloat64, floatCalRes, floatCal, hdl, hdr]
    · rw [← Decimal.toRat_mul]
      exact Decimal.toFloat64_roundsFrom _
    · simp [binaryValue, binaryFloat64, floatCalRes, floatCal, hdl, hdr]
    · exact Float64.quo_roundsFrom l r
  · intro h
    have hnone : ∀ op, floatCal l r op = none := by
      intro op
      unfold floatCal
      rcases h with h | h
      · rw [newFromFloat_of_not_finite h]
      · rw [newFromFloat_of_not_finite h]
        cases Decimal.newFromFloat l <;> rfl
    refine ⟨?_, ?_, ?_, ?_⟩ <;>
      simp [binaryValue, binaryFloat64, floatCalRes, hnone]

/-- The arithmetic of finite Floats at `1.223400012-1.2` of `engine_test.go`,
with the decimals 1.223400012 and 1.2. -/
theorem float_arithmetic_witness :
    (parseFloat "1.223400012").1.isFinite = true ∧ (parseFloat "1.2").1.isFinite = true ∧
    Decimal.newFromFloat (parseFloat "1.223400012").1 = some ⟨1223400012, -9⟩ ∧
    Decimal.newFromFloat (parseFloat "1.2").1 = some ⟨12, -1⟩ ∧
    binaryValue .SUB (.float64 (parseFloat "1.223400012").1) (.float64 (parseFloat "1.2").1)
      = .ret (.float64 (parseFloat "0.023400012").1) none ∧
    ∃ dl dr, Decimal.newFromFloat (parseFloat "1.223400012").1 = some dl ∧
      Decimal.newFromFloat (parseFloat "1.2").1 = some dr ∧
      binaryValue .ADD (.float64 (parseFloat "1.223400012").1) (.float64 (parseFloat "1.2").1)
        = .ret (.float64 (dl.add dr).toFloat64) none ∧
      (dl.add dr).toFloat64.roundsFrom (dl.toRat + dr.toRat) ∧
      binaryValue .SUB (.float64 (parseFloat "1.223400012").1) (.float64 (parseFloat "1.2").1)
        = .ret (.float64 (dl.sub dr).toFloat64) none ∧
      (dl.sub dr).toFloat64.roundsFrom (dl.toRat - dr.toRat) ∧
      binaryValue .MUL (.float64 (parseFloat "1.223400012").1) (.float64 (parseFloat "1.2").1)
        = .ret (.float64 (dl.mul dr).toFloat64) none ∧
      (dl.mul dr).toFloat64.roundsFrom (dl.toRat * dr.toRat) ∧
      binaryValue .QUO (.float64 (parseFloat "1.223400012").1) (.float64 (parseFloat "1.2").1)
        = .ret (.float64 (Float64.quo (parseFloat "1.223400012").1 (parseFloat "1.2").1)) none ∧
      (Float64.quo (parseFloat "1.223400012").1 (parseFloat "1.2").1).roundsFrom
        ((parseFloat "1.223400012").1.toRat / (parseFloat "1.2").1.toRat) :=
  ⟨rfl, rfl, rfl, rfl, rfl,
    (float_arithmetic Regexp.literal (parseFloat "1.223400012").1 (parseFloat "1.2").1).1
      rfl rfl⟩

end Gre
